import Mathlib

/-!
# Operator library of the `dream` tensor framework (`src/op.cc`)

A shallow embedding of the operators of `src/op.cc` and proofs about them.

Modelling conventions.

* Scalars (`float` in the source) are elements of an arbitrary type `R` carrying the
  algebraic structure an operator needs; every result is about exact arithmetic.
* A raw buffer (`float*`) is a `List R`.  A read or a write outside the buffer, which is
  undefined behaviour in the source, makes the operation fail (`none`).
* `int` sizes and indices are natural numbers: a tensor has fewer than `2^31` elements,
  so no index computation of the source overflows.
* A `for` loop counting `0, 1, ..., n-1` is `forLoop n body`.
* A failed `assert`, a missing attribute and a division of integers by zero are `none`.
-/

namespace Dream

/-! ## Data model (the parts of `tensor.h` and `node.h` the operators use) -/

/-- Modelled from the spec: `TensorShape` of `tensor.h`, "an ordered sequence of dimension
sizes". -/
structure TensorShape where
  dims : List Nat
deriving DecidableEq

/-- Modelled from the spec: `TensorShape::NumDims`, the number of dimensions. -/
def TensorShape.NumDims (s : TensorShape) : Nat := s.dims.length

/-- Modelled from the spec: `TensorShape::DimSize`, the size of one axis; an axis the shape does
not have is a failure. -/
def TensorShape.DimSize (s : TensorShape) (axis : Nat) : Option Nat := s.dims[axis]?

/-- Modelled from the spec: `TensorShape::NumElements`, the element count of the shape, the
product of its dimension sizes. -/
def TensorShape.NumElements (s : TensorShape) : Nat := s.dims.prod

/-- Modelled from the spec: `TensorShape::AppendDim`, which adds one trailing dimension. -/
def TensorShape.AppendDim (s : TensorShape) (d : Nat) : TensorShape := ⟨s.dims ++ [d]⟩

/-- Modelled from the spec: `Tensor` of `tensor.h`, a shape and a contiguous row-major
buffer reached through `GetHandle`. -/
structure Tensor (R : Type) where
  shape : TensorShape
  handle : List R
deriving DecidableEq

/-- Modelled from the spec: `Tensor::NumElements`, the element count of the tensor's shape. -/
def Tensor.NumElements {R : Type} (t : Tensor R) : Nat := t.shape.NumElements

/-- A tensor whose buffer holds exactly as many elements as its shape says. -/
def Tensor.WellFormed {R : Type} (t : Tensor R) : Prop := t.handle.length = t.NumElements

instance {R : Type} (t : Tensor R) : Decidable t.WellFormed :=
  inferInstanceAs (Decidable (t.handle.length = t.NumElements))

/-- Modelled from the spec: an attribute of a node, "a named, typed scalar or boolean
value". -/
inductive AttrValue (R : Type) where
  | float (v : R)
  | bool (b : Bool)
deriving DecidableEq

/-- Modelled from the spec: `Node` of `node.h`, "a graph vertex holding an operator tag, an
ordered list of input Nodes, a mapping of named attributes".  A leaf is a node without
inputs; the operators of this library take one or two inputs. -/
inductive Node (R : Type) where
  | leaf (id : Nat)
  | op1 (name : String) (attrs : List (String × AttrValue R)) (in0 : Node R)
  | op2 (name : String) (attrs : List (String × AttrValue R)) (in0 in1 : Node R)
deriving DecidableEq

/-- The attribute map of a node. -/
def Node.attrs {R : Type} : Node R → List (String × AttrValue R)
  | .leaf _ => []
  | .op1 _ a _ => a
  | .op2 _ a _ _ => a

/-- Modelled from the spec: `Node::GetInputNodes`, the ordered list of input nodes. -/
def Node.GetInputNodes {R : Type} : Node R → List (Node R)
  | .leaf _ => []
  | .op1 _ _ x => [x]
  | .op2 _ _ x y => [x, y]

/-- Modelled from the spec: `Node::GetAttr` at type `bool`, which "fails if absent or of a
mismatched type". -/
def Node.GetAttrBool {R : Type} (node : Node R) (key : String) : Option Bool :=
  match node.attrs.lookup key with
  | some (.bool b) => some b
  | _ => none

/-- Modelled from the spec: `Node::GetAttr` at type `float`. -/
def Node.GetAttrFloat {R : Type} (node : Node R) (key : String) : Option R :=
  match node.attrs.lookup key with
  | some (.float v) => some v
  | _ => none

/-! ## Loops and memory access -/

/-- The loop `for (int i = 0; i < n; i++) s = body(i, s)`, failing as soon as an
iteration fails. -/
def forLoop {σ : Type} (n : Nat) (body : Nat → σ → Option σ) (s : σ) : Option σ :=
  match n with
  | 0 => some s
  | k + 1 => (forLoop k body s).bind (body k)

/-- Read `buf[i]`; outside the buffer the read fails. -/
def load {R : Type} (buf : List R) (i : Nat) : Option R := buf[i]?

/-- Write `buf[i] = v`; outside the buffer the write fails. -/
def store {R : Type} (buf : List R) (i : Nat) (v : R) : Option (List R) :=
  if i < buf.length then some (buf.set i v) else none

/-! ## Elementwise operators -/

section Elementwise

variable {R : Type}

/-- Method `AddOp::Compute` (op.cc 7-17). -/
def AddOp.Compute [Add R] (_node : Node R) (in_tensors out_tensors : List (Tensor R)) :
    Option (List (Tensor R)) :=
  match in_tensors, out_tensors with
  | [in0, in1], out0 :: rest => do
    let num_elements := out0.NumElements
    let h ← forLoop num_elements (fun i h => do
      let x ← load in0.handle i
      let y ← load in1.handle i
      store h i (x + y)) out0.handle
    some ({ out0 with handle := h } :: rest)
  | _, _ => none

/-- Method `MinusOp::Compute` (op.cc 60-70). -/
def MinusOp.Compute [Sub R] (_node : Node R) (in_tensors out_tensors : List (Tensor R)) :
    Option (List (Tensor R)) :=
  match in_tensors, out_tensors with
  | [in0, in1], out0 :: rest => do
    let num_elements := out0.NumElements
    let h ← forLoop num_elements (fun i h => do
      let x ← load in0.handle i
      let y ← load in1.handle i
      store h i (x - y)) out0.handle
    some ({ out0 with handle := h } :: rest)
  | _, _ => none

/-- Method `MultiplyOp::Compute` (op.cc 113-123). -/
def MultiplyOp.Compute [Mul R] (_node : Node R) (in_tensors out_tensors : List (Tensor R)) :
    Option (List (Tensor R)) :=
  match in_tensors, out_tensors with
  | [in0, in1], out0 :: rest => do
    let num_elements := out0.NumElements
    let h ← forLoop num_elements (fun i h => do
      let x ← load in0.handle i
      let y ← load in1.handle i
      store h i (x * y)) out0.handle
    some ({ out0 with handle := h } :: rest)
  | _, _ => none

/-- Method `DevideOp::Compute` (op.cc 170-180). -/
def DevideOp.Compute [Div R] (_node : Node R) (in_tensors out_tensors : List (Tensor R)) :
    Option (List (Tensor R)) :=
  match in_tensors, out_tensors with
  | [in0, in1], out0 :: rest => do
    let num_elements := out0.NumElements
    let h ← forLoop num_elements (fun i h => do
      let x ← load in0.handle i
      let y ← load in1.handle i
      store h i (x / y)) out0.handle
    some ({ out0 with handle := h } :: rest)
  | _, _ => none

/-- Method `AddByConstOp::Compute` (op.cc 33-44). -/
def AddByConstOp.Compute [Add R] (node : Node R) (in_tensors out_tensors : List (Tensor R)) :
    Option (List (Tensor R)) :=
  match in_tensors, out_tensors with
  | [in0], out0 :: rest => do
    let num_elements := out0.NumElements
    let const_val ← node.GetAttrFloat "const_val"
    let h ← forLoop num_elements (fun i h => do
      let x ← load in0.handle i
      store h i (x + const_val)) out0.handle
    some ({ out0 with handle := h } :: rest)
  | _, _ => none

/-- Method `MinusByConstOp::Compute` (op.cc 86-97). -/
def MinusByConstOp.Compute [Sub R] (node : Node R) (in_tensors out_tensors : List (Tensor R)) :
    Option (List (Tensor R)) :=
  match in_tensors, out_tensors with
  | [in0], out0 :: rest => do
    let num_elements := out0.NumElements
    let const_val ← node.GetAttrFloat "const_val"
    let h ← forLoop num_elements (fun i h => do
      let x ← load in0.handle i
      store h i (x - const_val)) out0.handle
    some ({ out0 with handle := h } :: rest)
  | _, _ => none

/-- Method `MultiplyByConstOp::Compute` (op.cc 141-152). -/
def MultiplyByConstOp.Compute [Mul R] (node : Node R)
    (in_tensors out_tensors : List (Tensor R)) : Option (List (Tensor R)) :=
  match in_tensors, out_tensors with
  | [in0], out0 :: rest => do
    let num_elements := out0.NumElements
    let const_val ← node.GetAttrFloat "const_val"
    let h ← forLoop num_elements (fun i h => do
      let x ← load in0.handle i
      store h i (x * const_val)) out0.handle
    some ({ out0 with handle := h } :: rest)
  | _, _ => none

/-- Method `DevideByConstOp::Compute` (op.cc 200-211). -/
def DevideByConstOp.Compute [Div R] (node : Node R)
    (in_tensors out_tensors : List (Tensor R)) : Option (List (Tensor R)) :=
  match in_tensors, out_tensors with
  | [in0], out0 :: rest => do
    let num_elements := out0.NumElements
    let const_val ← node.GetAttrFloat "const_val"
    let h ← forLoop num_elements (fun i h => do
      let x ← load in0.handle i
      store h i (x / const_val)) out0.handle
    some ({ out0 with handle := h } :: rest)
  | _, _ => none

/-- Method `ZerosOp::Compute` (op.cc 308-317). -/
def ZerosOp.Compute [Zero R] (_node : Node R) (in_tensors out_tensors : List (Tensor R)) :
    Option (List (Tensor R)) :=
  match in_tensors, out_tensors with
  | [_in0], out0 :: rest => do
    let num_elements := out0.NumElements
    let h ← forLoop num_elements (fun i h => store h i 0) out0.handle
    some ({ out0 with handle := h } :: rest)
  | _, _ => none

/-- Method `OnesOp::Compute` (op.cc 335-344). -/
def OnesOp.Compute [One R] (_node : Node R) (in_tensors out_tensors : List (Tensor R)) :
    Option (List (Tensor R)) :=
  match in_tensors, out_tensors with
  | [_in0], out0 :: rest => do
    let num_elements := out0.NumElements
    let h ← forLoop num_elements (fun i h => store h i 1) out0.handle
    some ({ out0 with handle := h } :: rest)
  | _, _ => none

/-- Method `ReluOp::Compute` (op.cc 518-528); `std::max(a, b)` is `a < b ? b : a`. -/
def ReluOp.Compute [Zero R] [LT R] [DecidableRel (fun a b : R => a < b)] (_node : Node R)
    (in_tensors out_tensors : List (Tensor R)) : Option (List (Tensor R)) :=
  match in_tensors, out_tensors with
  | [in0], out0 :: rest => do
    let num_elements := out0.NumElements
    let h ← forLoop num_elements (fun i h => do
      let x ← load in0.handle i
      store h i (if x < 0 then 0 else x)) out0.handle
    some ({ out0 with handle := h } :: rest)
  | _, _ => none

end Elementwise

/-! ## MatMul -/

section MatMul

variable {R : Type}

/-- Method `MatMulOp::Compute` (op.cc 229-263). -/
def MatMulOp.Compute [Zero R] [Add R] [Mul R] (node : Node R)
    (in_tensors out_tensors : List (Tensor R)) : Option (List (Tensor R)) :=
  match in_tensors, out_tensors with
  | [in0, in1], out0 :: rest => do
    let trans_a ← node.GetAttrBool "trans_a"
    let trans_b ← node.GetAttrBool "trans_b"
    let a := in0.handle
    let b := in1.handle
    let shape_a := in0.shape
    let shape_b := in1.shape
    let num_m ← if trans_a then shape_a.DimSize 1 else shape_a.DimSize 0
    let num_n ← if trans_b then shape_b.DimSize 0 else shape_b.DimSize 1
    let num_k ← if trans_a then shape_a.DimSize 0 else shape_a.DimSize 1
    let num_col_a ← shape_a.DimSize 1
    let num_col_b ← shape_b.DimSize 1
    let h ← forLoop num_m (fun i h =>
      forLoop num_n (fun j h => do
        let sum ← forLoop num_k (fun k sum => do
          let a_val ← if trans_a then load a (num_col_a * k + i) else load a (num_col_a * i + k)
          let b_val ← if trans_b then load b (num_col_b * j + k) else load b (num_col_b * k + j)
          some (sum + a_val * b_val)) 0
        store h (num_n * i + j) sum) h) out0.handle
    some ({ out0 with handle := h } :: rest)
  | _, _ => none

/-- Method `MatMulOp::Infer` (op.cc 265-277); `TensorShape(m, n)` is the two-dimensional shape. -/
def MatMulOp.Infer (node : Node R) (in_shapes _out_shapes : List TensorShape) :
    Option (List TensorShape) :=
  match in_shapes with
  | [s0, s1] => do
    let trans_a ← node.GetAttrBool "trans_a"
    let trans_b ← node.GetAttrBool "trans_b"
    let m ← if trans_a then s0.DimSize 1 else s0.DimSize 0
    let n ← if trans_b then s1.DimSize 0 else s1.DimSize 1
    some [⟨[m, n]⟩]
  | _ => none

/-- Modelled from the spec: `MatMulOperator` of `node.h`, which builds the MatMul node over
two input nodes with the two transpose flags as its `trans_a` and `trans_b` attributes. -/
def MatMulOperator (a b : Node R) (trans_a trans_b : Bool) : Node R :=
  .op2 "MatMul" [("trans_a", .bool trans_a), ("trans_b", .bool trans_b)] a b

/-- The flags `MatMulOp::Gradient` branches on (op.cc 284-287).  Both `GetAttr` calls
write the local `trans_a`: after them it holds the node's `trans_b` attribute.  The local
`trans_b` is declared and never assigned; its indeterminate value is the parameter
`trans_b_local`. -/
def MatMulOp.GradientFlags (node : Node R) (trans_b_local : Bool) : Option (Bool × Bool) := do
  let _trans_a ← node.GetAttrBool "trans_a"
  let trans_b := trans_b_local
  let trans_a ← node.GetAttrBool "trans_b"
  some (trans_a, trans_b)

/-- The case analysis of `MatMulOp::Gradient` (op.cc 289-305) on the pair of flags. -/
def MatMulOp.GradientCases (trans_a trans_b : Bool) (inputs0 inputs1 in_grad : Node R) :
    List (Node R) :=
  if trans_a = false ∧ trans_b = false then
    let lhs_grad := MatMulOperator in_grad inputs1 false true
    let rhs_grad := MatMulOperator inputs0 in_grad true false
    [lhs_grad, rhs_grad]
  else if trans_a = true ∧ trans_b = false then
    let lhs_grad := MatMulOperator inputs1 in_grad false true
    let rhs_grad := MatMulOperator inputs0 in_grad true false
    [lhs_grad, rhs_grad]
  else if trans_a = false ∧ trans_b = true then
    let lhs_grad := MatMulOperator in_grad inputs1 false true
    let rhs_grad := MatMulOperator in_grad inputs0 true false
    [lhs_grad, rhs_grad]
  else
    let lhs_grad := MatMulOperator inputs1 in_grad false true
    let rhs_grad := MatMulOperator in_grad inputs0 true false
    [lhs_grad, rhs_grad]

/-- Method `MatMulOp::Gradient` (op.cc 279-306): the new value of `out_grads`. -/
def MatMulOp.Gradient (node in_grad : Node R) (trans_b_local : Bool) :
    Option (List (Node R)) :=
  match node.GetInputNodes with
  | [inputs0, inputs1] => do
    let flags ← MatMulOp.GradientFlags node trans_b_local
    some (MatMulOp.GradientCases flags.1 flags.2 inputs0 inputs1 in_grad)
  | _ => none

end MatMul

/-! ## ReduceSumAxisZero and BroadCastTo -/

section ReduceBroadcast

variable {R : Type}

/-- Method `ReduceSumAxisZeroOp::Compute` (op.cc 362-379).  The integer divisions and remainders
of the source fail on a zero divisor. -/
def ReduceSumAxisZeroOp.Compute [Add R] (_node : Node R)
    (in_tensors out_tensors : List (Tensor R)) : Option (List (Tensor R)) :=
  match in_tensors, out_tensors with
  | [in0], out0 :: rest => do
    let inp := in0.handle
    let num_elements := in0.NumElements
    let dim0 ← in0.shape.DimSize 0
    let reduce_elements ← if dim0 = 0 then none else some (num_elements / dim0)
    let out ← forLoop num_elements (fun i out => do
      let idx ← if reduce_elements = 0 then none else some (i / reduce_elements)
      if idx = 0 then do
        let x ← load inp i
        store out (i % reduce_elements) x
      else do
        let x ← load inp i
        let acc ← load out (i % reduce_elements)
        store out (i % reduce_elements) (acc + x)) out0.handle
    some ({ out0 with handle := out } :: rest)
  | _, _ => none

/-- Method `ReduceSumAxisZeroOp::Infer` (op.cc 381-391): the loop appends the dimensions
`1 .. NumDims-1` to an empty shape, and the shape is pushed onto `out_shapes`. -/
def ReduceSumAxisZeroOp.Infer (_node : Node R) (in_shapes out_shapes : List TensorShape) :
    Option (List TensorShape) :=
  match in_shapes with
  | [s0] => do
    let out_shape ← forLoop (s0.NumDims - 1) (fun i0 out_shape => do
      let d ← s0.DimSize (i0 + 1)
      some (out_shape.AppendDim d)) ⟨[]⟩
    some (out_shapes ++ [out_shape])
  | _ => none

/-- Method `BroadCastToOp::Compute` (op.cc 401-417).  The moving pointer `base` is the offset of
the current copy in the output buffer. -/
def BroadCastToOp.Compute (_node : Node R) (in_tensors out_tensors : List (Tensor R)) :
    Option (List (Tensor R)) :=
  match in_tensors, out_tensors with
  | [in0, in1], out0 :: rest => do
    let n_times ← in1.shape.DimSize 0
    let num_elements := in0.NumElements
    let st ← forLoop n_times (fun _i (st : Nat × List R) => do
      let h ← forLoop num_elements (fun j h => do
        let x ← load in0.handle j
        store h (st.1 + j) x) st.2
      some (st.1 + num_elements, h)) (0, out0.handle)
    some ({ out0 with handle := st.2 } :: rest)
  | _, _ => none

/-- Method `BroadCastToOp::Infer` (op.cc 419-425). -/
def BroadCastToOp.Infer (_node : Node R) (in_shapes _out_shapes : List TensorShape) :
    Option (List TensorShape) :=
  match in_shapes with
  | [_s0, s1] => some [s1]
  | _ => none

end ReduceBroadcast

/-! ## Softmax and SoftmaxCrossEntropy

`exp` and `log` of `<cmath>` are parameters of the two operators. -/

section Softmax

variable {R : Type}

/-- Method `SoftmaxOp::Compute` (op.cc 437-457). -/
def SoftmaxOp.Compute [Field R] (exp : R → R) (_node : Node R)
    (in_tensors out_tensors : List (Tensor R)) : Option (List (Tensor R)) :=
  match in_tensors, out_tensors with
  | [y], out0 :: rest => do
    let m ← y.shape.DimSize 0
    let n ← y.shape.DimSize 1
    let h ← forLoop m (fun i h => do
      let st ← forLoop n (fun j (st : R × List R) => do
        let x ← load y.handle (n * i + j)
        let val := exp x
        let h ← store st.2 (n * i + j) val
        some (st.1 + val, h)) (0, h)
      let sum := st.1
      forLoop n (fun j h => do
        let v ← load h (n * i + j)
        store h (n * i + j) (v / sum)) st.2) out0.handle
    some ({ out0 with handle := h } :: rest)
  | _, _ => none

/-- Method `SoftmaxCrossEntropyOp::Compute` (op.cc 473-498).  The scratch vector `tmp` has `n`
zero-initialised elements and lives across the rows. -/
def SoftmaxCrossEntropyOp.Compute [Field R] (exp log : R → R) (_node : Node R)
    (in_tensors out_tensors : List (Tensor R)) : Option (List (Tensor R)) :=
  match in_tensors, out_tensors with
  | [y, y_], out0 :: rest => do
    let m ← y.shape.DimSize 0
    let n ← y.shape.DimSize 1
    let st ← forLoop m (fun i (st : R × List R) => do
      let row ← forLoop n (fun j (row : R × List R) => do
        let x ← load y.handle (n * i + j)
        let val := exp x
        let tmp ← store row.2 j val
        some (row.1 + val, tmp)) (0, st.2)
      let sum := row.1
      forLoop n (fun j (acc : R × List R) => do
        let t ← load acc.2 j
        let tmp ← store acc.2 j (t / sum)
        let l ← load y_.handle (n * i + j)
        some (acc.1 + (-l) * log (t / sum), tmp)) (st.1, row.2)) (0, List.replicate n 0)
    let total_sum := st.1
    let h ← store out0.handle 0 (total_sum / (m : R))
    some ({ out0 with handle := h } :: rest)
  | _, _ => none

end Softmax

/-! ## The operator factory -/

/-- The operator classes of `op.cc`. -/
inductive OpKind where
  | AddOp | AddByConstOp | MinusOp | MinusByConstOp | MultiplyOp | MultiplyByConstOp
  | DevideOp | DevideByConstOp | MatMulOp | ZerosOp | OnesOp | ReduceSumAxisZeroOp
  | BroadCastToOp | SoftmaxOp | SoftmaxCrossEntropyOp | ReluOp
deriving DecidableEq

/-- An operator instance: its class and the name given to its constructor (`none` for the
null pointer). -/
structure Op where
  kind : OpKind
  name : Option String
deriving DecidableEq

/-- Reference mapping, from the spec's catalogue of operator variants: the class named by
each of the 16 canonical operator names, and `none` for every other string. -/
def OpKind.ofName (name : String) : Option OpKind :=
  if name = "Add" then some .AddOp
  else if name = "AddByConst" then some .AddByConstOp
  else if name = "Minus" then some .MinusOp
  else if name = "MinusByConst" then some .MinusByConstOp
  else if name = "Multiply" then some .MultiplyOp
  else if name = "MultiplyByConst" then some .MultiplyByConstOp
  else if name = "Devide" then some .DevideOp
  else if name = "DevideByConst" then some .DevideByConstOp
  else if name = "MatMul" then some .MatMulOp
  else if name = "Zeros" then some .ZerosOp
  else if name = "Ones" then some .OnesOp
  else if name = "ReduceSumAxisZero" then some .ReduceSumAxisZeroOp
  else if name = "BroadCastTo" then some .BroadCastToOp
  else if name = "Softmax" then some .SoftmaxOp
  else if name = "SoftmaxCrossEntropy" then some .SoftmaxCrossEntropyOp
  else if name = "Relu" then some .ReluOp
  else none

/-- Method `Op::Create` (op.cc 543-579).  The result is a shared pointer: `some op` points to an
operator instance, `none` is the null pointer. -/
def Op.Create (name : String) : Option Op :=
  if name = "Add" then some ⟨.AddOp, some name⟩
  else if name = "AddByConst" then some ⟨.AddByConstOp, some name⟩
  else if name = "Minus" then some ⟨.MinusOp, some name⟩
  else if name = "MinusByConst" then some ⟨.MinusByConstOp, some name⟩
  else if name = "Multiply" then some ⟨.MultiplyOp, some name⟩
  else if name = "MultiplyByConst" then some ⟨.MultiplyByConstOp, some name⟩
  else if name = "Devide" then some ⟨.DevideOp, some name⟩
  else if name = "DevideByConst" then some ⟨.MultiplyByConstOp, some name⟩
  else if name = "MatMul" then some ⟨.MatMulOp, some name⟩
  else if name = "Zeros" then some ⟨.ZerosOp, some name⟩
  else if name = "Ones" then some ⟨.OnesOp, some name⟩
  else if name = "ReduceSumAxisZero" then some ⟨.ReduceSumAxisZeroOp, some name⟩
  else if name = "BroadCastTo" then some ⟨.BroadCastToOp, some name⟩
  else if name = "Softmax" then some ⟨.SoftmaxOp, some name⟩
  else if name = "SoftmaxCrossEntropy" then some ⟨.SoftmaxCrossEntropyOp, some name⟩
  else if name = "Relu" then some ⟨.ReluOp, some name⟩
  else some ⟨.DevideOp, none⟩

/-- The virtual call `op->Compute(node, in_tensors, out_tensors)`: each class runs its
own `Compute`. -/
def Op.Compute {R : Type} [Field R] [LT R] [DecidableRel (fun a b : R => a < b)]
    (exp log : R → R) (op : Op) (node : Node R) (in_tensors out_tensors : List (Tensor R)) :
    Option (List (Tensor R)) :=
  match op.kind with
  | .AddOp => AddOp.Compute node in_tensors out_tensors
  | .AddByConstOp => AddByConstOp.Compute node in_tensors out_tensors
  | .MinusOp => MinusOp.Compute node in_tensors out_tensors
  | .MinusByConstOp => MinusByConstOp.Compute node in_tensors out_tensors
  | .MultiplyOp => MultiplyOp.Compute node in_tensors out_tensors
  | .MultiplyByConstOp => MultiplyByConstOp.Compute node in_tensors out_tensors
  | .DevideOp => DevideOp.Compute node in_tensors out_tensors
  | .DevideByConstOp => DevideByConstOp.Compute node in_tensors out_tensors
  | .MatMulOp => MatMulOp.Compute node in_tensors out_tensors
  | .ZerosOp => ZerosOp.Compute node in_tensors out_tensors
  | .OnesOp => OnesOp.Compute node in_tensors out_tensors
  | .ReduceSumAxisZeroOp => ReduceSumAxisZeroOp.Compute node in_tensors out_tensors
  | .BroadCastToOp => BroadCastToOp.Compute node in_tensors out_tensors
  | .SoftmaxOp => SoftmaxOp.Compute exp node in_tensors out_tensors
  | .SoftmaxCrossEntropyOp => SoftmaxCrossEntropyOp.Compute exp log node in_tensors out_tensors
  | .ReluOp => ReluOp.Compute node in_tensors out_tensors

/-! ## Reference semantics of the matrix product -/

section Reference

variable {R : Type}

/-- Entry `(r, c)` of the row-major matrix stored in `t`, whose rows have `cols` elements. -/
def Tensor.entry [Zero R] (t : Tensor R) (cols r c : Nat) : R := t.handle.getD (cols * r + c) 0

/-- Entry `(r, c)` of the logical view of `t`: the stored matrix, transposed exactly when
`trans` is set. -/
def Tensor.view [Zero R] (t : Tensor R) (trans : Bool) (cols r c : Nat) : R :=
  if trans then t.entry cols c r else t.entry cols r c

/-- Entry `(i, j)` of the reference product of the logical views of `A` and `B`, the sum
over the inner index `kk < k` of `A'[i,kk] * B'[kk,j]`. -/
def matMulRef [Semiring R] (A B : Tensor R) (trans_a trans_b : Bool) (cols_a cols_b k : Nat)
    (i j : Nat) : R :=
  ∑ kk ∈ Finset.range k, A.view trans_a cols_a i kk * B.view trans_b cols_b kk j

/-- The stored row-major matrix of `t` transposed physically: for a tensor of shape
`(rows, cols)` the tensor of shape `(cols, rows)` whose entry `(c, r)` is entry `(r, c)`
of `t`. -/
def Tensor.transpose [Zero R] (t : Tensor R) : Tensor R :=
  match t.shape.dims with
  | [rows, cols] =>
    ⟨⟨[cols, rows]⟩, (List.range (cols * rows)).map (fun p => t.entry cols (p % rows) (p / rows))⟩
  | _ => t

end Reference

/-! ## Reference semantics of the reduction -/

/-- The part of column `r` that the loop of `ReduceSumAxisZeroOp::Compute` has added up
once it has consumed the first `i` input elements. -/
def columnSumUpTo {R : Type} [AddCommMonoid R] (inp : List R) (d n : Nat) (i r : Nat) : R :=
  ∑ t ∈ Finset.range d, if t * n + r < i then inp.getD (t * n + r) 0 else 0

/-! ## Shape inference of the remaining operators -/

section Infer

variable {R : Type}

/-- Method `AddOp::Infer` (op.cc 19-25). -/
def AddOp.Infer (_node : Node R) (in_shapes _out_shapes : List TensorShape) :
    Option (List TensorShape) :=
  match in_shapes with
  | [s0, _s1] => some [s0]
  | _ => none

/-- Method `AddByConstOp::Infer` (op.cc 46-52). -/
def AddByConstOp.Infer (_node : Node R) (in_shapes _out_shapes : List TensorShape) :
    Option (List TensorShape) :=
  match in_shapes with
  | [s0] => some [s0]
  | _ => none

/-- Method `MinusOp::Infer` (op.cc 72-78). -/
def MinusOp.Infer (_node : Node R) (in_shapes _out_shapes : List TensorShape) :
    Option (List TensorShape) :=
  match in_shapes with
  | [s0, _s1] => some [s0]
  | _ => none

/-- Method `MinusByConstOp::Infer` (op.cc 99-105). -/
def MinusByConstOp.Infer (_node : Node R) (in_shapes _out_shapes : List TensorShape) :
    Option (List TensorShape) :=
  match in_shapes with
  | [s0] => some [s0]
  | _ => none

/-- Method `MultiplyOp::Infer` (op.cc 125-131). -/
def MultiplyOp.Infer (_node : Node R) (in_shapes _out_shapes : List TensorShape) :
    Option (List TensorShape) :=
  match in_shapes with
  | [s0, _s1] => some [s0]
  | _ => none

/-- Method `MultiplyByConstOp::Infer` (op.cc 154-160). -/
def MultiplyByConstOp.Infer (_node : Node R) (in_shapes _out_shapes : List TensorShape) :
    Option (List TensorShape) :=
  match in_shapes with
  | [s0] => some [s0]
  | _ => none

/-- Method `DevideOp::Infer` (op.cc 182-188). -/
def DevideOp.Infer (_node : Node R) (in_shapes _out_shapes : List TensorShape) :
    Option (List TensorShape) :=
  match in_shapes with
  | [s0, _s1] => some [s0]
  | _ => none

/-- Method `DevideByConstOp::Infer` (op.cc 213-219). -/
def DevideByConstOp.Infer (_node : Node R) (in_shapes _out_shapes : List TensorShape) :
    Option (List TensorShape) :=
  match in_shapes with
  | [s0] => some [s0]
  | _ => none

/-- Method `ZerosOp::Infer` (op.cc 319-325). -/
def ZerosOp.Infer (_node : Node R) (in_shapes _out_shapes : List TensorShape) :
    Option (List TensorShape) :=
  match in_shapes with
  | [s0] => some [s0]
  | _ => none

/-- Method `OnesOp::Infer` (op.cc 346-352). -/
def OnesOp.Infer (_node : Node R) (in_shapes _out_shapes : List TensorShape) :
    Option (List TensorShape) :=
  match in_shapes with
  | [s0] => some [s0]
  | _ => none

/-- Method `SoftmaxOp::Infer` (op.cc 459-465). -/
def SoftmaxOp.Infer (_node : Node R) (in_shapes _out_shapes : List TensorShape) :
    Option (List TensorShape) :=
  match in_shapes with
  | [s0] => some [s0]
  | _ => none

/-- Method `SoftmaxCrossEntropyOp::Infer` (op.cc 500-506); `TensorShape(1)` is the shape with
the single dimension `1`. -/
def SoftmaxCrossEntropyOp.Infer (_node : Node R) (in_shapes _out_shapes : List TensorShape) :
    Option (List TensorShape) :=
  match in_shapes with
  | [_s0, _s1] => some [⟨[1]⟩]
  | _ => none

/-- Method `ReluOp::Infer` (op.cc 530-536). -/
def ReluOp.Infer (_node : Node R) (in_shapes _out_shapes : List TensorShape) :
    Option (List TensorShape) :=
  match in_shapes with
  | [s0] => some [s0]
  | _ => none

/-- The virtual call `op->Infer(node, in_shapes, out_shapes)`: each class runs its own
`Infer`; the result is the new value of `out_shapes`. -/
def Op.Infer (op : Op) (node : Node R) (in_shapes out_shapes : List TensorShape) :
    Option (List TensorShape) :=
  match op.kind with
  | .AddOp => AddOp.Infer node in_shapes out_shapes
  | .AddByConstOp => AddByConstOp.Infer node in_shapes out_shapes
  | .MinusOp => MinusOp.Infer node in_shapes out_shapes
  | .MinusByConstOp => MinusByConstOp.Infer node in_shapes out_shapes
  | .MultiplyOp => MultiplyOp.Infer node in_shapes out_shapes
  | .MultiplyByConstOp => MultiplyByConstOp.Infer node in_shapes out_shapes
  | .DevideOp => DevideOp.Infer node in_shapes out_shapes
  | .DevideByConstOp => DevideByConstOp.Infer node in_shapes out_shapes
  | .MatMulOp => MatMulOp.Infer node in_shapes out_shapes
  | .ZerosOp => ZerosOp.Infer node in_shapes out_shapes
  | .OnesOp => OnesOp.Infer node in_shapes out_shapes
  | .ReduceSumAxisZeroOp => ReduceSumAxisZeroOp.Infer node in_shapes out_shapes
  | .BroadCastToOp => BroadCastToOp.Infer node in_shapes out_shapes
  | .SoftmaxOp => SoftmaxOp.Infer node in_shapes out_shapes
  | .SoftmaxCrossEntropyOp => SoftmaxCrossEntropyOp.Infer node in_shapes out_shapes
  | .ReluOp => ReluOp.Infer node in_shapes out_shapes

end Infer

/-! ## Node construction (the operator sugar of `node.h`) -/

section NodeSugar

variable {R : Type}

/-- Modelled from the spec: `operator+` of `node.h` on two nodes, the Add node over them. -/
def Node.add (a b : Node R) : Node R := .op2 "Add" [] a b

/-- Modelled from the spec: `operator*` of `node.h` on two nodes, the Multiply node over
them. -/
def Node.mul (a b : Node R) : Node R := .op2 "Multiply" [] a b

/-- Modelled from the spec: `operator/` of `node.h` on two nodes, the Devide node over
them. -/
def Node.div (a b : Node R) : Node R := .op2 "Devide" [] a b

/-- Modelled from the spec: `operator*` of `node.h` on a node and a number, the
MultiplyByConst node over the node with the number as its `const_val` attribute. -/
def Node.mulConst (a : Node R) (c : R) : Node R :=
  .op1 "MultiplyByConst" [("const_val", .float c)] a

/-- Modelled from the spec: `operator*` of `node.h` on a number and a node, the
MultiplyByConst node over the node with the number as its `const_val` attribute. -/
def Node.constMul (c : R) (a : Node R) : Node R :=
  .op1 "MultiplyByConst" [("const_val", .float c)] a

/-- Modelled from the spec: `operator/` of `node.h` on a node and a number, the
DevideByConst node over the node with the number as its `const_val` attribute. -/
def Node.divConst (a : Node R) (c : R) : Node R :=
  .op1 "DevideByConst" [("const_val", .float c)] a

/-- Modelled from the spec: `ZerosOperator` of `node.h`, the Zeros node over a node. -/
def ZerosOperator (a : Node R) : Node R := .op1 "Zeros" [] a

/-- Modelled from the spec: `SoftmaxOperator` of `node.h`, the Softmax node over a node. -/
def SoftmaxOperator (a : Node R) : Node R := .op1 "Softmax" [] a

/-- Modelled from the spec: `ReduceSumAxisZeroOperator` of `node.h`, the ReduceSumAxisZero
node over a node. -/
def ReduceSumAxisZeroOperator (a : Node R) : Node R := .op1 "ReduceSumAxisZero" [] a

/-- Modelled from the spec: `BroadCastToOperator` of `node.h`, the BroadCastTo node over a
source node and a template node. -/
def BroadCastToOperator (a b : Node R) : Node R := .op2 "BroadCastTo" [] a b

end NodeSugar

/-! ## Gradient rules

Each `Gradient` takes the node, the incoming gradient and the list `out_grads` as the
caller passes it, and returns the list as the call leaves it.  `inputs[k]` on a node with
fewer inputs is a failure. -/

section Gradient

variable {R : Type}

/-- Method `AddOp::Gradient` (op.cc 27-31). -/
def AddOp.Gradient (_node in_grad : Node R) (_out_grads : List (Node R)) :
    Option (List (Node R)) :=
  some [in_grad, in_grad]

/-- Method `AddByConstOp::Gradient` (op.cc 54-58). -/
def AddByConstOp.Gradient (_node in_grad : Node R) (_out_grads : List (Node R)) :
    Option (List (Node R)) :=
  some [in_grad]

/-- Method `MinusOp::Gradient` (op.cc 80-84). -/
def MinusOp.Gradient [Neg R] [One R] (_node in_grad : Node R) (_out_grads : List (Node R)) :
    Option (List (Node R)) :=
  some [in_grad, in_grad.mulConst (-1)]

/-- Method `MinusByConstOp::Gradient` (op.cc 107-111). -/
def MinusByConstOp.Gradient (_node in_grad : Node R) (_out_grads : List (Node R)) :
    Option (List (Node R)) :=
  some [in_grad]

/-- Method `MultiplyOp::Gradient` (op.cc 133-139). -/
def MultiplyOp.Gradient (node in_grad : Node R) (_out_grads : List (Node R)) :
    Option (List (Node R)) :=
  match node.GetInputNodes with
  | [inputs0, inputs1] => some [in_grad.mul inputs1, in_grad.mul inputs0]
  | _ => none

/-- Method `MultiplyByConstOp::Gradient` (op.cc 162-168). -/
def MultiplyByConstOp.Gradient (node in_grad : Node R) (_out_grads : List (Node R)) :
    Option (List (Node R)) := do
  let const_val ← node.GetAttrFloat "const_val"
  some [in_grad.mulConst const_val]

/-- Method `DevideOp::Gradient` (op.cc 190-198). -/
def DevideOp.Gradient [Neg R] [One R] (node in_grad : Node R) (_out_grads : List (Node R)) :
    Option (List (Node R)) :=
  match node.GetInputNodes with
  | [_inputs0, inputs1] =>
    let lhs_node := (in_grad.mul node).div inputs1
    let rhs_node := (Node.constMul (-1) in_grad).div inputs1
    some [lhs_node, rhs_node]
  | _ => none

/-- Method `DevideByConstOp::Gradient` (op.cc 221-227). -/
def DevideByConstOp.Gradient (node in_grad : Node R) (_out_grads : List (Node R)) :
    Option (List (Node R)) := do
  let const_val ← node.GetAttrFloat "const_val"
  some [in_grad.divConst const_val]

/-- Method `ZerosOp::Gradient` (op.cc 327-333). -/
def ZerosOp.Gradient (node _in_grad : Node R) (_out_grads : List (Node R)) :
    Option (List (Node R)) :=
  match node.GetInputNodes with
  | inputs0 :: _ => some [ZerosOperator inputs0]
  | _ => none

/-- Method `OnesOp::Gradient` (op.cc 354-360). -/
def OnesOp.Gradient (node _in_grad : Node R) (_out_grads : List (Node R)) :
    Option (List (Node R)) :=
  match node.GetInputNodes with
  | inputs0 :: _ => some [ZerosOperator inputs0]
  | _ => none

/-- Method `ReduceSumAxisZeroOp::Gradient` (op.cc 393-399). -/
def ReduceSumAxisZeroOp.Gradient (node in_grad : Node R) (_out_grads : List (Node R)) :
    Option (List (Node R)) :=
  match node.GetInputNodes with
  | inputs0 :: _ => some [BroadCastToOperator in_grad inputs0]
  | _ => none

/-- Method `BroadCastToOp::Gradient` (op.cc 427-435). -/
def BroadCastToOp.Gradient (node in_grad : Node R) (_out_grads : List (Node R)) :
    Option (List (Node R)) :=
  match node.GetInputNodes with
  | [_inputs0, inputs1] =>
    let lhs_node := ReduceSumAxisZeroOperator in_grad
    let rhs_node := ZerosOperator inputs1
    some [lhs_node, rhs_node]
  | _ => none

/-- Method `SoftmaxOp::Gradient` (op.cc 467-471).  The standard output is the list of the
lines written so far; the call leaves `out_grads` as it was and returns normally, which is
`some`; `none` would be a failure signalled to the caller. -/
def SoftmaxOp.Gradient (_node _in_grad : Node R) (out_grads : List (Node R))
    (cout : List String) : Option (List (Node R) × List String) :=
  some (out_grads, cout ++ ["Softmax Op has no gradient function"])

/-- Method `SoftmaxCrossEntropyOp::Gradient` (op.cc 508-516). -/
def SoftmaxCrossEntropyOp.Gradient [Neg R] [One R] (node in_grad : Node R)
    (_out_grads : List (Node R)) : Option (List (Node R)) :=
  match node.GetInputNodes with
  | [inputs0, inputs1] =>
    let lhs_grad := ((SoftmaxOperator inputs0).add (inputs1.mulConst (-1))).mul in_grad
    let rhs_grad := ZerosOperator inputs1
    some [lhs_grad, rhs_grad]
  | _ => none

/-- Method `ReluOp::Gradient` (op.cc 538-541): the body is empty, `out_grads` stays as the
caller passed it. -/
def ReluOp.Gradient (_node _in_grad : Node R) (out_grads : List (Node R)) :
    Option (List (Node R)) :=
  some out_grads

end Gradient

/-! ## Forward evaluation of a node -/

section Eval

variable {R : Type} [Field R] [LT R] [DecidableRel (fun a b : R => a < b)]

/-- Modelled from the spec: one step of the forward pass of the engine, which is not part
of `op.cc`: "calling Infer then Compute" on a node, with the output tensor "allocated by
the external engine sized according to Infer's output".  The operator run is the one of the
class `kind`. -/
def runOp (exp log : R → R) (kind : OpKind) (node : Node R) (in_tensors : List (Tensor R)) :
    Option (Tensor R) := do
  let out_shapes ← Op.Infer ⟨kind, none⟩ node (in_tensors.map (fun t => t.shape)) []
  let out_shape ← out_shapes[0]?
  let out_tensors ← Op.Compute exp log ⟨kind, none⟩ node in_tensors
    [⟨out_shape, List.replicate out_shape.NumElements 0⟩]
  out_tensors[0]?

/-- Modelled from the spec: the forward pass of the engine on the expression below a node.
A leaf takes its tensor from `env`; every other node evaluates its inputs and then runs
the operator of the class that its operator tag names. -/
def Node.eval (exp log : R → R) (env : Nat → Option (Tensor R)) : Node R → Option (Tensor R)
  | .leaf id => env id
  | .op1 name attrs in0 => do
    let t0 ← Node.eval exp log env in0
    let kind ← OpKind.ofName name
    runOp exp log kind (.op1 name attrs in0) [t0]
  | .op2 name attrs in0 in1 => do
    let t0 ← Node.eval exp log env in0
    let t1 ← Node.eval exp log env in1
    let kind ← OpKind.ofName name
    runOp exp log kind (.op2 name attrs in0 in1) [t0, t1]

end Eval

/-! ## Reference semantics of softmax and cross-entropy -/

/-- Entry `(i, j)` of the row-wise softmax of the `n`-column matrix stored in `y`:
`exp(y[i,j])` over the sum of `exp(y[i,j'])` for `j' < n`. -/
def softmaxRef {R : Type} [Field R] (exp : R → R) (y : List R) (n i j : Nat) : R :=
  exp (y.getD (n * i + j) 0) / ∑ j' ∈ Finset.range n, exp (y.getD (n * i + j') 0)

/-- The cross-entropy of row `i`: the sum over `j < n` of `-y_[i,j] * log(softmax(y)[i,j])`. -/
def crossEntropyRow {R : Type} [Field R] (exp log : R → R) (y y_ : List R) (n i : Nat) : R :=
  ∑ j ∈ Finset.range n, (-(y_.getD (n * i + j) 0)) * log (softmaxRef exp y n i j)

/-! ## Reference reading of an evaluation -/

/-- The evaluation `res` succeeded with a well-formed tensor of shape `shape` whose element
at every linear index `i` is `f i`. -/
def EvaluatesTo {R : Type} (res : Option (Tensor R)) (shape : TensorShape) (f : Nat → R) :
    Prop :=
  ∃ t, res = some t ∧ t.shape = shape ∧ t.WellFormed ∧
    ∀ i, i < shape.NumElements → t.handle[i]? = some (f i)

/-! ## Shape inference over an expression -/

/-- Modelled from the spec: the shape pass of the engine on the expression below a node,
which is not part of `op.cc`.  A leaf takes its shape from `senv`; every other node infers
the shapes of its inputs and then runs, on an empty output list, the `Infer` of the class
that its operator tag names; the shape of the node is the first entry of the list. -/
def Node.inferShape {R : Type} (senv : Nat → Option TensorShape) : Node R → Option TensorShape
  | .leaf id => senv id
  | .op1 name attrs in0 => do
    let s0 ← Node.inferShape senv in0
    let kind ← OpKind.ofName name
    let out_shapes ← Op.Infer ⟨kind, none⟩ (.op1 name attrs in0) [s0] []
    out_shapes[0]?
  | .op2 name attrs in0 in1 => do
    let s0 ← Node.inferShape senv in0
    let s1 ← Node.inferShape senv in1
    let kind ← OpKind.ofName name
    let out_shapes ← Op.Infer ⟨kind, none⟩ (.op2 name attrs in0 in1) [s0, s1] []
    out_shapes[0]?

/-- Shape soundness of a gradient rule `grad` at a node: the node has an inferred shape,
and for every incoming gradient `g` shaped like the node, `grad g` returns as many
expressions as the node has inputs, the `k`-th of them having the inferred shape of the
`k`-th input. -/
def GradientShapeSound {R : Type} (senv : Nat → Option TensorShape) (node : Node R)
    (grad : Node R → Option (List (Node R))) : Prop :=
  (∃ sn, node.inferShape senv = some sn) ∧
  ∀ g, g.inferShape senv = node.inferShape senv →
    ∃ (l : List (Node R)) (shapes : List TensorShape), grad g = some l ∧ l.length = node.GetInputNodes.length ∧
      l.map (Node.inferShape senv) = shapes.map some ∧
      node.GetInputNodes.map (Node.inferShape senv) = shapes.map some

/-! # Theorems -/


/-! ## Loop rules -/

theorem forLoop_succ {σ : Type} (n : Nat) (body : Nat → σ → Option σ) (s : σ) :
    forLoop (n + 1) body s = (forLoop n body s).bind (body n) := rfl

/-- Invariant rule: a loop whose every iteration succeeds and carries the invariant from
`i` to `i + 1` succeeds and ends in a state satisfying the invariant at `n`. -/
theorem forLoop_inv {σ : Type} (P : Nat → σ → Prop) (n : Nat) (body : Nat → σ → Option σ)
    (s : σ) (h0 : P 0 s)
    (hstep : ∀ i, i < n → ∀ t, P i t → ∃ u, body i t = some u ∧ P (i + 1) u) :
    ∃ t, forLoop n body s = some t ∧ P n t := by
  induction n with
  | zero => exact ⟨s, rfl, h0⟩
  | succ k ih =>
    obtain ⟨t, ht, hP⟩ := ih (fun i hi => hstep i (Nat.lt_succ_of_lt hi))
    obtain ⟨u, hu, hQ⟩ := hstep k (Nat.lt_succ_self k) t hP
    exact ⟨u, by rw [forLoop_succ, ht]; exact hu, hQ⟩

theorem load_eq_some {R : Type} [Zero R] (buf : List R) (i : Nat) (hi : i < buf.length) :
    load buf i = some (buf.getD i 0) := by
  simp [load, List.getD, List.getElem?_eq_getElem hi]

theorem store_eq_some {R : Type} (buf : List R) (i : Nat) (v : R) (hi : i < buf.length) :
    store buf i v = some (buf.set i v) := by
  simp [store, hi]

/-- A loop that stores the value `v i` at the index `idx i` in iteration `i`, with the
indices pairwise distinct and inside the buffer: afterwards the buffer has its old
length, holds `v i` at `idx i`, and is unchanged at every other index. -/
theorem forLoop_store {R : Type} (n : Nat) (body : Nat → List R → Option (List R))
    (idx : Nat → Nat) (v : Nat → R) (h0 : List R)
    (hbody : ∀ i, i < n → ∀ h : List R, h.length = h0.length →
      body i h = store h (idx i) (v i))
    (hidx : ∀ i, i < n → idx i < h0.length)
    (hinj : ∀ i, i < n → ∀ j, j < i → idx j ≠ idx i) :
    ∃ h, forLoop n body h0 = some h ∧ h.length = h0.length ∧
      (∀ i, i < n → h[idx i]? = some (v i)) ∧
      (∀ p, (∀ i, i < n → idx i ≠ p) → h[p]? = h0[p]?) := by
  have key := forLoop_inv
    (fun i (h : List R) => h.length = h0.length ∧ (∀ j, j < i → h[idx j]? = some (v j)) ∧
      (∀ p, (∀ j, j < i → idx j ≠ p) → h[p]? = h0[p]?))
    n body h0 ⟨rfl, fun j hj => absurd hj (Nat.not_lt_zero j), fun p _ => rfl⟩
    (by
      intro i hi h ⟨hlen, hdone, hrest⟩
      refine ⟨h.set (idx i) (v i), ?_, ?_, ?_, ?_⟩
      · rw [hbody i hi h hlen, store_eq_some]
        rw [hlen]; exact hidx i hi
      · simp [hlen]
      · intro j hj
        rcases Nat.lt_succ_iff_lt_or_eq.mp hj with hlt | heq
        · rw [List.getElem?_set_ne (hinj i hi j hlt).symm]
          exact hdone j hlt
        · subst heq
          rw [List.getElem?_set_self]
          simp [hlen, hidx j hi]
      · intro p hp
        rw [List.getElem?_set_ne (hp i (Nat.lt_succ_self i))]
        exact hrest p (fun j hj => hp j (Nat.lt_succ_of_lt hj)))
  obtain ⟨h, hrun, hlen, hdone, hrest⟩ := key
  exact ⟨h, hrun, hlen, hdone, hrest⟩


/-! ## Elementwise operators -/

/-- The loop shared by the four binary elementwise operators. -/
theorem binary_loop {R : Type} [Zero R] (f : R → R → R) (a b h0 : List R) (n : Nat)
    (ha : n ≤ a.length) (hb : n ≤ b.length) (hh : n ≤ h0.length) :
    ∃ h, forLoop n (fun i h => do
        let x ← load a i
        let y ← load b i
        store h i (f x y)) h0 = some h ∧ h.length = h0.length ∧
      ∀ i, i < n → h[i]? = some (f (a.getD i 0) (b.getD i 0)) := by
  obtain ⟨h, hrun, hlen, hdone, -⟩ := forLoop_store n
    (fun i h => do
        let x ← load a i
        let y ← load b i
        store h i (f x y)) id
    (fun i => f (a.getD i 0) (b.getD i 0)) h0
    (by
      intro i hi h _
      simp only [load_eq_some a i (lt_of_lt_of_le hi ha),
        load_eq_some b i (lt_of_lt_of_le hi hb), id]
      rfl)
    (fun i hi => lt_of_lt_of_le hi hh)
    (fun i _ j hj => Nat.ne_of_lt hj)
  exact ⟨h, hrun, hlen, hdone⟩

/-- Claim C7. Elementwise binary `Compute` is pointwise.  For equal-shaped tensors `A`, `B` and an
output tensor `out` of the same shape, each of `AddOp`, `MinusOp`, `MultiplyOp` and
`DevideOp` succeeds, leaves the shape of `out` and the other output tensors alone, and
leaves in the buffer of `out` the value `A[i] OP B[i]` at every linear index `i` below the
number of elements, with `OP` being `+`, `-`, `*`, `/` (for `DevideOp` when every `B[i]`
is nonzero). -/
theorem elementwise_binary_Compute_pointwise {K : Type} [Field K] (node : Node K)
    (A B out : Tensor K) (rest : List (Tensor K))
    (hA : A.shape = out.shape) (hB : B.shape = out.shape)
    (hAw : A.WellFormed) (hBw : B.WellFormed) (hOw : out.WellFormed) :
    (∃ h, AddOp.Compute node [A, B] (out :: rest) = some ({ out with handle := h } :: rest) ∧
      h.length = out.NumElements ∧
      ∀ i, i < out.NumElements → h[i]? = some (A.handle.getD i 0 + B.handle.getD i 0)) ∧
    (∃ h, MinusOp.Compute node [A, B] (out :: rest) = some ({ out with handle := h } :: rest) ∧
      h.length = out.NumElements ∧
      ∀ i, i < out.NumElements → h[i]? = some (A.handle.getD i 0 - B.handle.getD i 0)) ∧
    (∃ h, MultiplyOp.Compute node [A, B] (out :: rest) =
        some ({ out with handle := h } :: rest) ∧
      h.length = out.NumElements ∧
      ∀ i, i < out.NumElements → h[i]? = some (A.handle.getD i 0 * B.handle.getD i 0)) ∧
    ((∀ i, i < out.NumElements → B.handle.getD i 0 ≠ 0) →
      ∃ h, DevideOp.Compute node [A, B] (out :: rest) =
        some ({ out with handle := h } :: rest) ∧
      h.length = out.NumElements ∧
      ∀ i, i < out.NumElements → h[i]? = some (A.handle.getD i 0 / B.handle.getD i 0)) := by
  have ha : out.NumElements ≤ A.handle.length := by
    unfold Tensor.WellFormed at hAw; rw [hAw, Tensor.NumElements, Tensor.NumElements, hA]
  have hb : out.NumElements ≤ B.handle.length := by
    unfold Tensor.WellFormed at hBw; rw [hBw, Tensor.NumElements, Tensor.NumElements, hB]
  have ho : out.NumElements ≤ out.handle.length := by
    unfold Tensor.WellFormed at hOw; rw [hOw]
  refine ⟨?_, ?_, ?_, ?_⟩
  · obtain ⟨h, hrun, hlen, hval⟩ :=
      binary_loop (fun x y : K => x + y) A.handle B.handle out.handle out.NumElements ha hb ho
    exact ⟨h, by simp only [AddOp.Compute]; rw [hrun]; rfl, hlen.trans hOw, hval⟩
  · obtain ⟨h, hrun, hlen, hval⟩ :=
      binary_loop (fun x y : K => x - y) A.handle B.handle out.handle out.NumElements ha hb ho
    exact ⟨h, by simp only [MinusOp.Compute]; rw [hrun]; rfl, hlen.trans hOw, hval⟩
  · obtain ⟨h, hrun, hlen, hval⟩ :=
      binary_loop (fun x y : K => x * y) A.handle B.handle out.handle out.NumElements ha hb ho
    exact ⟨h, by simp only [MultiplyOp.Compute]; rw [hrun]; rfl, hlen.trans hOw, hval⟩
  · intro _
    obtain ⟨h, hrun, hlen, hval⟩ :=
      binary_loop (fun x y : K => x / y) A.handle B.handle out.handle out.NumElements ha hb ho
    exact ⟨h, by simp only [DevideOp.Compute]; rw [hrun]; rfl, hlen.trans hOw, hval⟩


/-- The concrete scenario of C7: `[[1,2],[3,4]] + [[5,6],[7,8]] = [[6,8],[10,12]]`, and the
quotient of the same two tensors. -/
theorem elementwise_binary_Compute_pointwise_witness :
    AddOp.Compute (.leaf 0) [(⟨⟨[2, 2]⟩, [1, 2, 3, 4]⟩ : Tensor ℚ), ⟨⟨[2, 2]⟩, [5, 6, 7, 8]⟩]
        [⟨⟨[2, 2]⟩, [0, 0, 0, 0]⟩] = some [⟨⟨[2, 2]⟩, [6, 8, 10, 12]⟩] ∧
    (∃ h, AddOp.Compute (.leaf 0)
        [(⟨⟨[2, 2]⟩, [1, 2, 3, 4]⟩ : Tensor ℚ), ⟨⟨[2, 2]⟩, [5, 6, 7, 8]⟩]
        [⟨⟨[2, 2]⟩, [0, 0, 0, 0]⟩] = some [⟨⟨[2, 2]⟩, h⟩] ∧
      h.length = 4 ∧
      ∀ i, i < 4 → h[i]? =
        some (([1, 2, 3, 4] : List ℚ).getD i 0 + ([5, 6, 7, 8] : List ℚ).getD i 0)) ∧
    (∃ h, DevideOp.Compute (.leaf 0)
        [(⟨⟨[2, 2]⟩, [1, 2, 3, 4]⟩ : Tensor ℚ), ⟨⟨[2, 2]⟩, [5, 6, 7, 8]⟩]
        [⟨⟨[2, 2]⟩, [0, 0, 0, 0]⟩] = some [⟨⟨[2, 2]⟩, h⟩] ∧
      h.length = 4 ∧
      ∀ i, i < 4 → h[i]? =
        some (([1, 2, 3, 4] : List ℚ).getD i 0 / ([5, 6, 7, 8] : List ℚ).getD i 0)) :=
  ⟨by
    simp [AddOp.Compute, forLoop, load, store, Tensor.NumElements, TensorShape.NumElements]
    norm_num,
   (elementwise_binary_Compute_pointwise (.leaf 0) ⟨⟨[2, 2]⟩, [1, 2, 3, 4]⟩
      ⟨⟨[2, 2]⟩, [5, 6, 7, 8]⟩ ⟨⟨[2, 2]⟩, [0, 0, 0, 0]⟩ [] rfl rfl
      (by decide) (by decide) (by decide)).1,
   (elementwise_binary_Compute_pointwise (.leaf 0) ⟨⟨[2, 2]⟩, [1, 2, 3, 4]⟩
      ⟨⟨[2, 2]⟩, [5, 6, 7, 8]⟩ ⟨⟨[2, 2]⟩, [0, 0, 0, 0]⟩ [] rfl rfl
      (by decide) (by decide) (by decide)).2.2.2 (by
        intro i hi
        have hi4 : i < 4 := hi
        interval_cases i <;> simp)⟩


/-! ## MatMul -/

theorem index_lt {rows cols r c : Nat} (hr : r < rows) (hc : c < cols) :
    cols * r + c < rows * cols := by
  calc cols * r + c < cols * r + cols := Nat.add_lt_add_left hc _
    _ = cols * (r + 1) := by ring
    _ ≤ cols * rows := Nat.mul_le_mul_left _ hr
    _ = rows * cols := Nat.mul_comm _ _

/-- The innermost loop of `MatMulOp::Compute` accumulates the reference sum. -/
theorem MatMul_inner_loop {R : Type} [Semiring R] (A B : Tensor R) (trans_a trans_b : Bool)
    (ca cb i j k : Nat)
    (ha : ∀ kk, kk < k → (if trans_a then ca * kk + i else ca * i + kk) < A.handle.length)
    (hb : ∀ kk, kk < k → (if trans_b then cb * j + kk else cb * kk + j) < B.handle.length) :
    forLoop k (fun kk sum => do
        let a_val ← if trans_a then load A.handle (ca * kk + i) else load A.handle (ca * i + kk)
        let b_val ← if trans_b then load B.handle (cb * j + kk) else load B.handle (cb * kk + j)
        some (sum + a_val * b_val)) 0 = some (matMulRef A B trans_a trans_b ca cb k i j) := by
  induction k with
  | zero => simp [forLoop, matMulRef]
  | succ n ih =>
    rw [forLoop_succ, ih (fun kk hkk => ha kk (Nat.lt_succ_of_lt hkk))
      (fun kk hkk => hb kk (Nat.lt_succ_of_lt hkk))]
    have h1 := ha n (Nat.lt_succ_self n)
    have h2 := hb n (Nat.lt_succ_self n)
    unfold matMulRef
    rw [Finset.sum_range_succ]
    cases trans_a <;> cases trans_b <;>
      simp only [Bool.false_eq_true, if_false, if_true] at h1 h2 ⊢ <;>
      simp [load_eq_some _ _ h1, load_eq_some _ _ h2, Tensor.view, Tensor.entry]


/-- The two outer loops of `MatMulOp::Compute` fill the output with the reference product,
row by row. -/
theorem MatMul_outer_loops {R : Type} [Semiring R] (A B : Tensor R) (trans_a trans_b : Bool)
    (ca cb m n k : Nat) (h0 : List R)
    (ha : ∀ i, i < m → ∀ kk, kk < k →
      (if trans_a then ca * kk + i else ca * i + kk) < A.handle.length)
    (hb : ∀ j, j < n → ∀ kk, kk < k →
      (if trans_b then cb * j + kk else cb * kk + j) < B.handle.length)
    (hout : m * n ≤ h0.length) :
    ∃ h, forLoop m (fun i h =>
        forLoop n (fun j h => do
          let sum ← forLoop k (fun kk sum => do
            let a_val ← if trans_a then load A.handle (ca * kk + i)
              else load A.handle (ca * i + kk)
            let b_val ← if trans_b then load B.handle (cb * j + kk)
              else load B.handle (cb * kk + j)
            some (sum + a_val * b_val)) 0
          store h (n * i + j) sum) h) h0 = some h ∧
      h.length = h0.length ∧
      ∀ i, i < m → ∀ j, j < n →
        h[n * i + j]? = some (matMulRef A B trans_a trans_b ca cb k i j) := by
  apply forLoop_inv (fun r (h : List R) => h.length = h0.length ∧
      ∀ i, i < r → ∀ j, j < n →
        h[n * i + j]? = some (matMulRef A B trans_a trans_b ca cb k i j))
  · exact ⟨rfl, fun i hi => absurd hi (Nat.not_lt_zero i)⟩
  · intro i hi h ⟨hlen, hrows⟩
    obtain ⟨u, hrun, hulen, hdone, hframe⟩ := forLoop_store n
      (fun j h => do
          let sum ← forLoop k (fun kk sum => do
            let a_val ← if trans_a then load A.handle (ca * kk + i)
              else load A.handle (ca * i + kk)
            let b_val ← if trans_b then load B.handle (cb * j + kk)
              else load B.handle (cb * kk + j)
            some (sum + a_val * b_val)) 0
          store h (n * i + j) sum)
      (fun j => n * i + j) (fun j => matMulRef A B trans_a trans_b ca cb k i j) h
      (by
        intro j hj g _
        simp only [MatMul_inner_loop A B trans_a trans_b ca cb i j k (ha i hi) (hb j hj)]
        rfl)
      (by
        intro j hj
        rw [hlen]
        exact lt_of_lt_of_le (index_lt hi hj) hout)
      (by
        intro j _ j2 hj2 heq
        exact absurd (Nat.add_left_cancel heq) (Nat.ne_of_lt hj2))
    refine ⟨u, hrun, hulen.trans hlen, ?_⟩
    intro i2 hi2 j hj
    rcases Nat.lt_succ_iff_lt_or_eq.mp hi2 with hlt | heq
    · rw [hframe (n * i2 + j)]
      · exact hrows i2 hlt j hj
      · intro j2 _ hcontra
        have h1 : n * i2 + j < n * i := by
          calc n * i2 + j < n * i2 + n := Nat.add_lt_add_left hj _
            _ = n * (i2 + 1) := by ring
            _ ≤ n * i := Nat.mul_le_mul_left _ hlt
        omega
    · subst heq
      exact hdone j hj

/-- What `MatMulOp::Compute` leaves in the output buffer: for two-dimensional, well-formed
`A` of shape `(ra, ca)` and `B` of shape `(rb, cb)` whose logical views have a common inner
dimension, and an output buffer with room for `m * n` elements, the call succeeds and
element `n * i + j` of the output is entry `(i, j)` of the reference product. -/
theorem MatMul_Compute_spec {R : Type} [Semiring R] (node : Node R) (A B out : Tensor R)
    (rest : List (Tensor R)) (trans_a trans_b : Bool) (ra ca rb cb : Nat)
    (hta : node.GetAttrBool "trans_a" = some trans_a)
    (htb : node.GetAttrBool "trans_b" = some trans_b)
    (hA : A.shape = ⟨[ra, ca]⟩) (hB : B.shape = ⟨[rb, cb]⟩)
    (hAw : A.handle.length = ra * ca) (hBw : B.handle.length = rb * cb)
    (hk : (if trans_b then cb else rb) = (if trans_a then ra else ca))
    (hout : (if trans_a then ca else ra) * (if trans_b then rb else cb) ≤ out.handle.length) :
    ∃ h, MatMulOp.Compute node [A, B] (out :: rest) =
        some ({ out with handle := h } :: rest) ∧
      h.length = out.handle.length ∧
      ∀ i, i < (if trans_a then ca else ra) → ∀ j, j < (if trans_b then rb else cb) →
        h[(if trans_b then rb else cb) * i + j]? =
          some (matMulRef A B trans_a trans_b ca cb (if trans_a then ra else ca) i j) := by
  obtain ⟨h, hrun, hlen, hval⟩ := MatMul_outer_loops A B trans_a trans_b ca cb
    (if trans_a then ca else ra) (if trans_b then rb else cb) (if trans_a then ra else ca)
    out.handle
    (by
      intro i hi kk hkk
      rw [hAw]
      cases trans_a
      · simp only [Bool.false_eq_true, if_false] at hi hkk ⊢
        exact index_lt hi hkk
      · simp only [if_true] at hi hkk ⊢
        exact index_lt hkk hi)
    (by
      intro j hj kk hkk
      rw [hBw]
      rw [← hk] at hkk
      cases trans_b
      · simp only [Bool.false_eq_true, if_false] at hj hkk ⊢
        exact index_lt hkk hj
      · simp only [if_true] at hj hkk ⊢
        exact index_lt hj hkk)
    hout
  refine ⟨h, ?_, hlen, hval⟩
  refine Eq.trans ?_
    (congrArg (fun o : Option (List R) =>
      o.bind (fun h => some ((⟨out.shape, h⟩ : Tensor R) :: rest))) hrun)
  simp only [MatMulOp.Compute]
  rw [hta, htb, hA, hB]
  cases trans_a <;> cases trans_b <;> rfl


theorem wellFormed_matrix {R : Type} {t : Tensor R} {rows cols : Nat}
    (hs : t.shape = ⟨[rows, cols]⟩) (hw : t.WellFormed) : t.handle.length = rows * cols := by
  unfold Tensor.WellFormed at hw
  rw [hw, Tensor.NumElements, hs]
  simp [TensorShape.NumElements]

/-- Claim C1. `MatMulOp::Compute` equals the reference matrix product for all four combinations
of the transpose flags: for row-major two-dimensional tensors `A` of shape `(ra, ca)` and
`B` of shape `(rb, cb)`, with `m = trans_a ? ca : ra`, `k = trans_a ? ra : ca`,
`n = trans_b ? rb : cb`, the inner dimension of the logical view of `B` equal to `k` and an
output buffer of `m * n` elements, `Compute` succeeds and afterwards `out[n * i + j]` is the
sum over `kk < k` of `A'[i,kk] * B'[kk,j]` for all `i < m` and `j < n`. -/
theorem MatMulOp.Compute_eq_reference {R : Type} [Semiring R] (node : Node R)
    (A B out : Tensor R) (rest : List (Tensor R)) (trans_a trans_b : Bool)
    (ra ca rb cb : Nat)
    (hta : node.GetAttrBool "trans_a" = some trans_a)
    (htb : node.GetAttrBool "trans_b" = some trans_b)
    (hA : A.shape = ⟨[ra, ca]⟩) (hB : B.shape = ⟨[rb, cb]⟩)
    (hAw : A.WellFormed) (hBw : B.WellFormed)
    (hk : (if trans_b then cb else rb) = (if trans_a then ra else ca))
    (hout : out.handle.length = (if trans_a then ca else ra) * (if trans_b then rb else cb)) :
    ∃ h, MatMulOp.Compute node [A, B] (out :: rest) =
        some ({ out with handle := h } :: rest) ∧
      h.length = (if trans_a then ca else ra) * (if trans_b then rb else cb) ∧
      ∀ i, i < (if trans_a then ca else ra) → ∀ j, j < (if trans_b then rb else cb) →
        h[(if trans_b then rb else cb) * i + j]? =
          some (∑ kk ∈ Finset.range (if trans_a then ra else ca),
            A.view trans_a ca i kk * B.view trans_b cb kk j) := by
  obtain ⟨h, hrun, hlen, hval⟩ := MatMul_Compute_spec node A B out rest trans_a trans_b
    ra ca rb cb hta htb hA hB (wellFormed_matrix hA hAw) (wellFormed_matrix hB hBw) hk
    (le_of_eq hout.symm)
  exact ⟨h, hrun, hlen.trans hout, hval⟩

/-- The concrete scenario of C1: `[[1,2],[3,4]]` times `[[5,6],[7,8]]`, no flag set. -/
theorem MatMulOp.Compute_eq_reference_witness :
    MatMulOp.Compute (MatMulOperator (.leaf 0) (.leaf 1) false false)
        [(⟨⟨[2, 2]⟩, [1, 2, 3, 4]⟩ : Tensor Int), ⟨⟨[2, 2]⟩, [5, 6, 7, 8]⟩]
        [⟨⟨[2, 2]⟩, [0, 0, 0, 0]⟩] = some [⟨⟨[2, 2]⟩, [19, 22, 43, 50]⟩] ∧
    ∃ h, MatMulOp.Compute (MatMulOperator (.leaf 0) (.leaf 1) false false)
        [(⟨⟨[2, 2]⟩, [1, 2, 3, 4]⟩ : Tensor Int), ⟨⟨[2, 2]⟩, [5, 6, 7, 8]⟩]
        [⟨⟨[2, 2]⟩, [0, 0, 0, 0]⟩] = some [⟨⟨[2, 2]⟩, h⟩] ∧
      h.length = 2 * 2 ∧
      ∀ i, i < 2 → ∀ j, j < 2 → h[2 * i + j]? =
        some (∑ kk ∈ Finset.range 2,
          Tensor.view (⟨⟨[2, 2]⟩, [1, 2, 3, 4]⟩ : Tensor Int) false 2 i kk *
          Tensor.view (⟨⟨[2, 2]⟩, [5, 6, 7, 8]⟩ : Tensor Int) false 2 kk j) :=
  ⟨by decide,
   MatMulOp.Compute_eq_reference (MatMulOperator (.leaf 0) (.leaf 1) false false)
    ⟨⟨[2, 2]⟩, [1, 2, 3, 4]⟩ ⟨⟨[2, 2]⟩, [5, 6, 7, 8]⟩ ⟨⟨[2, 2]⟩, [0, 0, 0, 0]⟩ [] false false
    2 2 2 2 (by decide) (by decide) rfl rfl (by decide) (by decide) (by decide) (by decide)⟩


theorem transpose_shape {R : Type} [Zero R] {t : Tensor R} {rows cols : Nat}
    (hs : t.shape = ⟨[rows, cols]⟩) : t.transpose.shape = ⟨[cols, rows]⟩ := by
  simp [Tensor.transpose, hs]

theorem transpose_length {R : Type} [Zero R] {t : Tensor R} {rows cols : Nat}
    (hs : t.shape = ⟨[rows, cols]⟩) : t.transpose.handle.length = cols * rows := by
  simp [Tensor.transpose, hs]

theorem transpose_wellFormed {R : Type} [Zero R] {t : Tensor R} {rows cols : Nat}
    (hs : t.shape = ⟨[rows, cols]⟩) : t.transpose.WellFormed := by
  simp [Tensor.WellFormed, Tensor.NumElements, TensorShape.NumElements, Tensor.transpose, hs]

/-- Entry `(c, r)` of the transposed tensor is entry `(r, c)` of the tensor. -/
theorem transpose_entry {R : Type} [Zero R] {t : Tensor R} {rows cols r c : Nat}
    (hs : t.shape = ⟨[rows, cols]⟩) (hr : r < rows) (hc : c < cols) :
    t.transpose.entry rows c r = t.entry cols r c := by
  have hlt : rows * c + r < cols * rows := index_lt hc hr
  have hmod : (rows * c + r) % rows = r := by
    rw [Nat.mul_add_mod]; exact Nat.mod_eq_of_lt hr
  have hdiv : (rows * c + r) / rows = c := by
    rw [Nat.mul_add_div (Nat.zero_lt_of_lt hr), Nat.div_eq_of_lt hr, Nat.add_zero]
  simp [Tensor.transpose, hs, Tensor.entry, List.getD, hlt, hmod, hdiv]

/-- Two buffers of `m * n` elements that agree at every index `n * i + j` are equal. -/
theorem buffer_ext {R : Type} {m n : Nat} {h1 h2 : List R}
    (hl1 : h1.length = m * n) (hl2 : h2.length = m * n)
    (hval : ∀ i, i < m → ∀ j, j < n → h1[n * i + j]? = h2[n * i + j]?) : h1 = h2 := by
  apply List.ext_getElem?
  intro p
  by_cases hp : p < m * n
  · have hn : 0 < n := by
      rcases Nat.eq_zero_or_pos n with h0 | h0
      · subst h0; simp at hp
      · exact h0
    have hdiv : p / n < m := by
      rw [Nat.div_lt_iff_lt_mul hn]; exact hp
    have := hval (p / n) hdiv (p % n) (Nat.mod_lt p hn)
    rwa [Nat.div_add_mod] at this
  · have hp2 : m * n ≤ p := Nat.le_of_not_lt hp
    rw [List.getElem?_eq_none (by rw [hl1]; exact hp2),
      List.getElem?_eq_none (by rw [hl2]; exact hp2)]


/-- Reading the pre-transposed operand through its flag gives the entries of the operand. -/
theorem view_pretransposed {R : Type} [Zero R] {t : Tensor R} {rows cols r c : Nat}
    (hs : t.shape = ⟨[rows, cols]⟩) (hr : r < rows) (hc : c < cols) (trans : Bool) :
    (if trans then t.transpose else t).view trans (if trans then rows else cols) r c =
      t.view false cols r c := by
  cases trans
  · rfl
  · simp [Tensor.view, transpose_entry hs hr hc]

/-- Claim C2. `MatMulOp::Compute` is invariant under pre-transposing an operand and setting its
flag: for a `p × q` matrix `A`, a `q × r` matrix `B` and flags `(trans_a, trans_b)`,
`Compute` on the operands transposed physically exactly where the flag is set, with flags
`(trans_a, trans_b)`, succeeds with the same output as `Compute` on `(A, B)` with flags
`(false, false)`, for every initial content of the `p * r` element output buffer. -/
theorem MatMulOp.Compute_pretransposed {R : Type} [Semiring R] (node0 nodeT : Node R)
    (A B out : Tensor R) (rest : List (Tensor R)) (trans_a trans_b : Bool) (p q r : Nat)
    (h0a : node0.GetAttrBool "trans_a" = some false)
    (h0b : node0.GetAttrBool "trans_b" = some false)
    (hTa : nodeT.GetAttrBool "trans_a" = some trans_a)
    (hTb : nodeT.GetAttrBool "trans_b" = some trans_b)
    (hA : A.shape = ⟨[p, q]⟩) (hB : B.shape = ⟨[q, r]⟩)
    (hAw : A.WellFormed) (hBw : B.WellFormed) (hout : out.handle.length = p * r) :
    ∃ res, MatMulOp.Compute node0 [A, B] (out :: rest) = some res ∧
      MatMulOp.Compute nodeT
        [if trans_a then A.transpose else A, if trans_b then B.transpose else B]
        (out :: rest) = some res := by
  obtain ⟨h0, hrun0, hlen0, hval0⟩ := MatMul_Compute_spec node0 A B out rest false false
    p q q r h0a h0b hA hB (wellFormed_matrix hA hAw) (wellFormed_matrix hB hBw) rfl
    (le_of_eq hout.symm)
  obtain ⟨h1, hrun1, hlen1, hval1⟩ := MatMul_Compute_spec nodeT
    (if trans_a then A.transpose else A) (if trans_b then B.transpose else B) out rest
    trans_a trans_b (if trans_a then q else p) (if trans_a then p else q)
    (if trans_b then r else q) (if trans_b then q else r) hTa hTb
    (by cases trans_a
        · exact hA
        · exact transpose_shape hA)
    (by cases trans_b
        · exact hB
        · exact transpose_shape hB)
    (by cases trans_a
        · exact wellFormed_matrix hA hAw
        · exact transpose_length hA)
    (by cases trans_b
        · exact wellFormed_matrix hB hBw
        · exact transpose_length hB)
    (by cases trans_a <;> cases trans_b <;> rfl)
    (by cases trans_a <;> cases trans_b <;> exact le_of_eq hout.symm)
  have hm : (if trans_a then (if trans_a then p else q) else (if trans_a then q else p)) = p := by
    cases trans_a <;> rfl
  have hn : (if trans_b then (if trans_b then r else q) else (if trans_b then q else r)) = r := by
    cases trans_b <;> rfl
  have hk : (if trans_a then (if trans_a then q else p) else (if trans_a then p else q)) = q := by
    cases trans_a <;> rfl
  rw [hm, hn, hk] at hval1
  have heq : h0 = h1 := by
    apply @buffer_ext R p r h0 h1 (hlen0.trans hout) (hlen1.trans hout)
    intro i hi j hj
    have e0 := hval0 i hi j hj
    simp only [Bool.false_eq_true, if_false] at e0
    rw [e0, hval1 i hi j hj]
    congr 1
    unfold matMulRef
    apply Finset.sum_congr rfl
    intro kk hkk
    have hkq : kk < q := Finset.mem_range.mp hkk
    rw [view_pretransposed hA hi hkq trans_a, view_pretransposed hB hkq hj trans_b]
  refine ⟨_, hrun0, ?_⟩
  rw [hrun1, heq]


/-- The concrete scenario of C2: a `2 × 3` and a `3 × 2` matrix, both flags set. -/
theorem MatMulOp.Compute_pretransposed_witness :
    ∃ res, MatMulOp.Compute (MatMulOperator (.leaf 0) (.leaf 1) false false)
        [(⟨⟨[2, 3]⟩, [1, 2, 3, 4, 5, 6]⟩ : Tensor Int), ⟨⟨[3, 2]⟩, [1, 0, 0, 1, 2, 2]⟩]
        [⟨⟨[2, 2]⟩, [9, 9, 9, 9]⟩] = some res ∧
      MatMulOp.Compute (MatMulOperator (.leaf 0) (.leaf 1) true true)
        [if true then Tensor.transpose (⟨⟨[2, 3]⟩, [1, 2, 3, 4, 5, 6]⟩ : Tensor Int)
          else ⟨⟨[2, 3]⟩, [1, 2, 3, 4, 5, 6]⟩,
         if true then Tensor.transpose (⟨⟨[3, 2]⟩, [1, 0, 0, 1, 2, 2]⟩ : Tensor Int)
          else ⟨⟨[3, 2]⟩, [1, 0, 0, 1, 2, 2]⟩]
        [⟨⟨[2, 2]⟩, [9, 9, 9, 9]⟩] = some res :=
  MatMulOp.Compute_pretransposed (MatMulOperator (.leaf 0) (.leaf 1) false false)
    (MatMulOperator (.leaf 0) (.leaf 1) true true)
    ⟨⟨[2, 3]⟩, [1, 2, 3, 4, 5, 6]⟩ ⟨⟨[3, 2]⟩, [1, 0, 0, 1, 2, 2]⟩ ⟨⟨[2, 2]⟩, [9, 9, 9, 9]⟩ []
    true true 2 3 2 (by decide) (by decide) (by decide) (by decide) rfl rfl
    (by decide) (by decide) (by decide)

/-- The flags `MatMulOp::Gradient` branches on, for a node carrying both attributes: the
first is the node's `trans_b` attribute and the second is the unassigned local. -/
theorem MatMulOp.GradientFlags_eq {R : Type} (node : Node R) (ta tb t : Bool)
    (hta : node.GetAttrBool "trans_a" = some ta) (htb : node.GetAttrBool "trans_b" = some tb) :
    MatMulOp.GradientFlags node t = some (tb, t) := by
  simp [MatMulOp.GradientFlags, hta, htb]

/-- Claim C3 (defect). The case `(false, false)` of `MatMulOp::Gradient` returns
`{MatMul(g, B, false, true), MatMul(A, g, true, false)}`, but the case `(false, true)`
returns `MatMul(g, B, false, true)` as the gradient of `A`.  For `A = [[1,2],[3,4]]`,
`B = [[5,6],[7,8]]` and `g = [[1,0],[0,0]]` it evaluates to `g·Bᵗ = [[5,7],[0,0]]`, while
the derivative is `g·B = [[5,6],[0,0]]`: the forward output `A·Bᵗ` is `[[17,23],[39,53]]`,
and raising `A[0,1]` by one makes it `[[23,31],[39,53]]`, so the entry selected by `g`
grows by `6`, not by `7`. -/
theorem MatMulOp.Gradient_false_true_defect :
    (MatMulOp.GradientCases false false (.leaf 0) (.leaf 1) (.leaf 2) : List (Node Int)) =
      [MatMulOperator (.leaf 2) (.leaf 1) false true,
       MatMulOperator (.leaf 0) (.leaf 2) true false] ∧
    (MatMulOp.GradientCases false true (.leaf 0) (.leaf 1) (.leaf 2) : List (Node Int)) =
      [MatMulOperator (.leaf 2) (.leaf 1) false true,
       MatMulOperator (.leaf 2) (.leaf 0) true false] ∧
    MatMulOp.Compute (MatMulOperator (.leaf 2) (.leaf 1) false true)
      [(⟨⟨[2, 2]⟩, [1, 0, 0, 0]⟩ : Tensor Int), ⟨⟨[2, 2]⟩, [5, 6, 7, 8]⟩]
      [⟨⟨[2, 2]⟩, [0, 0, 0, 0]⟩] = some [⟨⟨[2, 2]⟩, [5, 7, 0, 0]⟩] ∧
    MatMulOp.Compute (MatMulOperator (.leaf 2) (.leaf 1) false false)
      [(⟨⟨[2, 2]⟩, [1, 0, 0, 0]⟩ : Tensor Int), ⟨⟨[2, 2]⟩, [5, 6, 7, 8]⟩]
      [⟨⟨[2, 2]⟩, [0, 0, 0, 0]⟩] = some [⟨⟨[2, 2]⟩, [5, 6, 0, 0]⟩] ∧
    MatMulOp.Compute (MatMulOperator (.leaf 0) (.leaf 1) false true)
      [(⟨⟨[2, 2]⟩, [1, 2, 3, 4]⟩ : Tensor Int), ⟨⟨[2, 2]⟩, [5, 6, 7, 8]⟩]
      [⟨⟨[2, 2]⟩, [0, 0, 0, 0]⟩] = some [⟨⟨[2, 2]⟩, [17, 23, 39, 53]⟩] ∧
    MatMulOp.Compute (MatMulOperator (.leaf 0) (.leaf 1) false true)
      [(⟨⟨[2, 2]⟩, [1, 2 + 1, 3, 4]⟩ : Tensor Int), ⟨⟨[2, 2]⟩, [5, 6, 7, 8]⟩]
      [⟨⟨[2, 2]⟩, [0, 0, 0, 0]⟩] = some [⟨⟨[2, 2]⟩, [17 + 6, 31, 39, 53]⟩] := by
  refine ⟨rfl, rfl, ?_, ?_, ?_, ?_⟩ <;> decide

/-- Claim C4 (defect). On a MatMul node with `trans_a = true` and `trans_b = false`, the flags
`MatMulOp::Gradient` branches on are `(false, t)` for the indeterminate value `t` of its
unassigned local `trans_b`: the first is the node's `trans_b` attribute, and for no `t` is
the pair the node's `(trans_a, trans_b) = (true, false)`; `Gradient` returns the case of
`(false, t)`. -/
theorem MatMulOp.Gradient_flags_defect :
    ∀ t : Bool,
      MatMulOp.GradientFlags (MatMulOperator (.leaf 0) (.leaf 1) true false : Node Int) t =
        some (false, t) ∧
      MatMulOp.GradientFlags (MatMulOperator (.leaf 0) (.leaf 1) true false : Node Int) t ≠
        some (true, false) ∧
      MatMulOp.Gradient (MatMulOperator (.leaf 0) (.leaf 1) true false : Node Int) (.leaf 2) t =
        some (MatMulOp.GradientCases false t (.leaf 0) (.leaf 1) (.leaf 2)) := by
  decide

/-- On every canonical name but `"DevideByConst"`, `Op::Create` returns an instance of
the class of that name, constructed from the name. -/
theorem Op.Create_of_canonical (name : String) (k : OpKind)
    (hk : OpKind.ofName name = some k) (hne : name ≠ "DevideByConst") :
    Op.Create name = some ⟨k, some name⟩ := by
  unfold OpKind.ofName at hk
  unfold Op.Create
  iterate 16
    rcases ite_eq_iff.mp hk with ⟨h, hk⟩ | ⟨h, hk⟩
    · rw [if_pos h]
      first
        | exact absurd h hne
        | (cases hk; rfl)
    rw [if_neg h]
  cases hk

/-- On every name that is not canonical, `Op::Create` returns a `DevideOp` constructed
from the null pointer. -/
theorem Op.Create_of_unknown (name : String) (hk : OpKind.ofName name = none) :
    Op.Create name = some ⟨.DevideOp, none⟩ := by
  unfold OpKind.ofName at hk
  unfold Op.Create
  iterate 16
    rcases ite_eq_iff.mp hk with ⟨h, hk⟩ | ⟨h, hk⟩
    · cases hk
    rw [if_neg h]

/-- Claim C5 (defect). `Op::Create` on the canonical name `"DevideByConst"` returns an instance
of `MultiplyByConstOp`, not of `DevideByConstOp`: on the input `[6]` with `const_val = 2`
the created operator computes `[12]`, where `DevideByConstOp::Compute` gives `[3]`. -/
theorem Op.Create_DevideByConst_defect :
    OpKind.ofName "DevideByConst" = some .DevideByConstOp ∧
    Op.Create "DevideByConst" = some ⟨.MultiplyByConstOp, some "DevideByConst"⟩ ∧
    (Op.Create "DevideByConst").bind (fun op =>
      Op.Compute (fun x : ℚ => x) (fun x : ℚ => x) op
        (.op1 "DevideByConst" [("const_val", .float 2)] (.leaf 0))
        [⟨⟨[1]⟩, [6]⟩] [⟨⟨[1]⟩, [0]⟩]) = some [⟨⟨[1]⟩, [12]⟩] ∧
    DevideByConstOp.Compute (.op1 "DevideByConst" [("const_val", .float 2)] (.leaf 0))
        [(⟨⟨[1]⟩, [6]⟩ : Tensor ℚ)] [⟨⟨[1]⟩, [0]⟩] = some [⟨⟨[1]⟩, [3]⟩] := by
  refine ⟨by decide, by decide, ?_, ?_⟩
  · have h : Op.Create "DevideByConst" = some ⟨.MultiplyByConstOp, some "DevideByConst"⟩ := by
      decide
    rw [h]
    simp [Op.Compute, MultiplyByConstOp.Compute, Node.GetAttrFloat, Node.attrs, List.lookup,
      forLoop, load, store, Tensor.NumElements, TensorShape.NumElements]
    norm_num
  · simp [DevideByConstOp.Compute, Node.GetAttrFloat, Node.attrs, List.lookup,
      forLoop, load, store, Tensor.NumElements, TensorShape.NumElements]
    norm_num

/-- Claim C6 (defect). `Op::Create` on the unknown name `"Foo"` returns an operator instance, a
`DevideOp` constructed from the null pointer, and not a failure. -/
theorem Op.Create_unknown_defect :
    OpKind.ofName "Foo" = none ∧ Op.Create "Foo" = some ⟨.DevideOp, none⟩ := by
  decide


/-! ## ReduceSumAxisZero -/

theorem columnSumUpTo_of_le {R : Type} [AddCommMonoid R] (inp : List R) (d n i r : Nat)
    (h : i ≤ r) : columnSumUpTo inp d n i r = 0 := by
  unfold columnSumUpTo
  apply Finset.sum_eq_zero
  intro t _
  rw [if_neg]
  omega

theorem columnSumUpTo_full {R : Type} [AddCommMonoid R] (inp : List R) (d n r : Nat)
    (hr : r < n) :
    columnSumUpTo inp d n (d * n) r = ∑ t ∈ Finset.range d, inp.getD (t * n + r) 0 := by
  unfold columnSumUpTo
  apply Finset.sum_congr rfl
  intro t ht
  rw [if_pos]
  have ht2 : t < d := Finset.mem_range.mp ht
  have := index_lt ht2 hr
  rw [Nat.mul_comm n t] at this
  exact this

theorem columnSumUpTo_succ {R : Type} [AddCommMonoid R] (inp : List R) (d n i r : Nat)
    (hr : r < n) (hi : i < d * n) :
    columnSumUpTo inp d n (i + 1) r =
      columnSumUpTo inp d n i r + (if i % n = r then inp.getD i 0 else 0) := by
  have hn : 0 < n := Nat.zero_lt_of_lt hr
  have hq : i / n < d := by
    rw [Nat.div_lt_iff_lt_mul hn]; exact hi
  have hsplit : ∀ t, (if t * n + r < i + 1 then inp.getD (t * n + r) 0 else 0) =
      (if t * n + r < i then inp.getD (t * n + r) 0 else 0) +
        (if t = i / n then (if i % n = r then inp.getD i 0 else 0) else 0) := by
    intro t
    by_cases h1 : t * n + r < i
    · have h2 : t * n + r < i + 1 := Nat.lt_succ_of_lt h1
      have h3 : ¬ (t = i / n ∧ i % n = r) := by
        rintro ⟨ht, hm⟩
        have := Nat.div_add_mod i n
        rw [← ht, hm, Nat.mul_comm] at this
        omega
      rw [if_pos h1, if_pos h2]
      by_cases ht : t = i / n
      · rw [if_pos ht, if_neg (fun hm => h3 ⟨ht, hm⟩), add_zero]
      · rw [if_neg ht, add_zero]
    · rw [if_neg h1, zero_add]
      by_cases h2 : t * n + r = i
      · have ht : t = i / n := by
          rw [← h2, Nat.mul_comm, Nat.mul_add_div hn, Nat.div_eq_of_lt hr, Nat.add_zero]
        have hm : i % n = r := by
          rw [← h2, Nat.mul_comm, Nat.mul_add_mod, Nat.mod_eq_of_lt hr]
        rw [if_pos (by omega), if_pos ht, if_pos hm, h2]
      · rw [if_neg (by omega)]
        by_cases ht : t = i / n
        · rw [if_pos ht, if_neg]
          intro hm
          apply h2
          have := Nat.div_add_mod i n
          rw [← ht, hm, Nat.mul_comm] at this
          exact this
        · rw [if_neg ht]
  unfold columnSumUpTo
  rw [Finset.sum_congr rfl (fun t _ => hsplit t), Finset.sum_add_distrib]
  congr 1
  rw [Finset.sum_ite_eq' (Finset.range d) (i / n), if_pos (Finset.mem_range.mpr hq)]


/-- The loop of `ReduceSumAxisZeroOp::Compute` over an input of `d * n` elements leaves the
column sums in the first `n` elements of the output, whatever they held before. -/
theorem ReduceSum_loop {R : Type} [AddCommMonoid R] (inp out0 : List R) (d n : Nat)
    (hd : 1 ≤ d) (hin : inp.length = d * n) (hout : n ≤ out0.length) :
    ∃ h, forLoop (d * n) (fun i out => do
        let idx ← if n = 0 then none else some (i / n)
        if idx = 0 then do
          let x ← load inp i
          store out (i % n) x
        else do
          let x ← load inp i
          let acc ← load out (i % n)
          store out (i % n) (acc + x)) out0 = some h ∧
      h.length = out0.length ∧
      ∀ r, r < n → h[r]? = some (∑ t ∈ Finset.range d, inp.getD (t * n + r) 0) := by
  obtain ⟨h, hrun, hlen, hval⟩ := forLoop_inv
    (fun i (out : List R) => out.length = out0.length ∧
      ∀ r, r < n → out[r]? = if i ≤ r then out0[r]? else some (columnSumUpTo inp d n i r))
    (d * n) (fun i out => do
        let idx ← if n = 0 then none else some (i / n)
        if idx = 0 then do
          let x ← load inp i
          store out (i % n) x
        else do
          let x ← load inp i
          let acc ← load out (i % n)
          store out (i % n) (acc + x)) out0
    ⟨rfl, fun r _ => by rw [if_pos (Nat.zero_le r)]⟩
    (by
      intro i hi out ⟨hlen, hinv⟩
      have hn : 0 < n := by
        rcases Nat.eq_zero_or_pos n with h0 | h0
        · subst h0; simp at hi
        · exact h0
      have hmod : i % n < n := Nat.mod_lt i hn
      have hmodle : i % n ≤ i := Nat.mod_le i n
      have hload : load inp i = some (inp.getD i 0) := load_eq_some inp i (by rw [hin]; exact hi)
      have hstore : ∀ v, store out (i % n) v = some (out.set (i % n) v) :=
        fun v => store_eq_some out (i % n) v (by rw [hlen]; exact lt_of_lt_of_le hmod hout)
      -- the value written in this iteration
      have hwrite : ∃ u, (do
          let idx ← if n = 0 then none else some (i / n)
          if idx = 0 then do
            let x ← load inp i
            store out (i % n) x
          else do
            let x ← load inp i
            let acc ← load out (i % n)
            store out (i % n) (acc + x)) = some u ∧
          u = out.set (i % n) (columnSumUpTo inp d n (i + 1) (i % n)) := by
        rw [columnSumUpTo_succ inp d n i (i % n) hmod hi, if_pos rfl]
        by_cases hq : i / n = 0
        · have hlt : i < n := (Nat.div_eq_zero_iff hn).mp hq
          have hzero : columnSumUpTo inp d n i (i % n) = 0 :=
            columnSumUpTo_of_le inp d n i (i % n) (by rw [Nat.mod_eq_of_lt hlt])
          refine ⟨out.set (i % n) (inp.getD i 0), ?_, by rw [hzero, zero_add]⟩
          simp [Nat.ne_of_gt hn, hq, hload, hstore]
        · have hge : ¬ i ≤ i % n := by
            intro hle
            apply hq
            exact Nat.div_eq_of_lt (lt_of_le_of_lt hle hmod)
          have hacc : load out (i % n) = some (columnSumUpTo inp d n i (i % n)) := by
            have := hinv (i % n) hmod
            rw [if_neg hge] at this
            exact this
          refine ⟨out.set (i % n) (columnSumUpTo inp d n i (i % n) + inp.getD i 0), ?_, rfl⟩
          simp [Nat.ne_of_gt hn, hq, hload, hstore, hacc]
      obtain ⟨u, hu, hueq⟩ := hwrite
      refine ⟨u, hu, ?_, ?_⟩
      · rw [hueq]; simp [hlen]
      · intro r hr
        rw [hueq]
        by_cases hrm : i % n = r
        · subst hrm
          rw [List.getElem?_set_self (by rw [hlen]; exact lt_of_lt_of_le hmod hout),
            if_neg (by omega)]
        · rw [List.getElem?_set_ne hrm, hinv r hr,
            columnSumUpTo_succ inp d n i r hr hi, if_neg hrm, add_zero]
          have hir : i ≠ r := by
            intro h
            apply hrm
            rw [h, Nat.mod_eq_of_lt hr]
          by_cases hle : i ≤ r
          · rw [if_pos hle, if_pos (by omega)]
          · rw [if_neg hle, if_neg (by omega)])
  refine ⟨h, hrun, hlen, ?_⟩
  intro r hr
  rw [hval r hr, if_neg, columnSumUpTo_full inp d n r hr]
  have : r < d * n := lt_of_lt_of_le hr (Nat.le_mul_of_pos_left n hd)
  omega


/-- A tensor with leading dimension `d ≥ 1` has `d * (NumElements / d)` elements. -/
theorem numElements_leading {R : Type} (t : Tensor R) (d : Nat)
    (hd : t.shape.DimSize 0 = some d) (hpos : 1 ≤ d) :
    d * (t.NumElements / d) = t.NumElements := by
  unfold TensorShape.DimSize at hd
  unfold Tensor.NumElements TensorShape.NumElements
  cases hdims : t.shape.dims with
  | nil => rw [hdims] at hd; simp at hd
  | cons a tl =>
    rw [hdims] at hd
    simp at hd
    subst hd
    rw [List.prod_cons, Nat.mul_div_cancel_left _ hpos]

/-- What `ReduceSumAxisZeroOp::Compute` leaves in the output buffer: the column sums in its
first `NumElements / d` elements. -/
theorem ReduceSum_Compute_spec {R : Type} [AddCommMonoid R] (node : Node R)
    (inp out : Tensor R) (rest : List (Tensor R)) (d : Nat)
    (hd : inp.shape.DimSize 0 = some d) (hpos : 1 ≤ d) (hw : inp.WellFormed)
    (hout : inp.NumElements / d ≤ out.handle.length) :
    ∃ h, ReduceSumAxisZeroOp.Compute node [inp] (out :: rest) =
        some ({ out with handle := h } :: rest) ∧
      h.length = out.handle.length ∧
      ∀ r, r < inp.NumElements / d →
        h[r]? = some (∑ i ∈ Finset.range d,
          inp.handle.getD (i * (inp.NumElements / d) + r) 0) := by
  have hN := numElements_leading inp d hd hpos
  obtain ⟨h, hrun, hlen, hval⟩ := ReduceSum_loop inp.handle out.handle d (inp.NumElements / d)
    hpos (by rw [hN]; exact hw) hout
  refine ⟨h, ?_, hlen, hval⟩
  rw [hN] at hrun
  refine Eq.trans ?_
    (congrArg (fun o : Option (List R) =>
      o.bind (fun h => some ((⟨out.shape, h⟩ : Tensor R) :: rest))) hrun)
  simp only [ReduceSumAxisZeroOp.Compute]
  rw [hd]
  obtain ⟨e, rfl⟩ : ∃ e, d = e + 1 := ⟨d - 1, by omega⟩
  rfl

/-- Claim C8. `ReduceSumAxisZeroOp::Compute` sums along axis 0: for an input tensor with leading
dimension `d ≥ 1` and rest-size `n = NumElements / d`, and for every initial content of
the output buffer of `n` elements, `Compute` succeeds and afterwards `out[r]` is the sum
over `i < d` of `in[i * n + r]`, for every `r < n`. -/
theorem ReduceSumAxisZeroOp.Compute_sums {R : Type} [AddCommMonoid R] (node : Node R)
    (inp out : Tensor R) (rest : List (Tensor R)) (d : Nat)
    (hd : inp.shape.DimSize 0 = some d) (hpos : 1 ≤ d) (hw : inp.WellFormed)
    (hout : out.handle.length = inp.NumElements / d) :
    ∃ h, ReduceSumAxisZeroOp.Compute node [inp] (out :: rest) =
        some ({ out with handle := h } :: rest) ∧
      h.length = inp.NumElements / d ∧
      ∀ r, r < inp.NumElements / d →
        h[r]? = some (∑ i ∈ Finset.range d,
          inp.handle.getD (i * (inp.NumElements / d) + r) 0) := by
  obtain ⟨h, hrun, hlen, hval⟩ := ReduceSum_Compute_spec node inp out rest d hd hpos hw
    (le_of_eq hout.symm)
  exact ⟨h, hrun, hlen.trans hout, hval⟩

/-- The concrete scenario of C8: a `3 × 2` input summed into a buffer holding `[100, 100]`
gives `[9, 12]`. -/
theorem ReduceSumAxisZeroOp.Compute_sums_witness :
    ReduceSumAxisZeroOp.Compute (.leaf 0) [(⟨⟨[3, 2]⟩, [1, 2, 3, 4, 5, 6]⟩ : Tensor Int)]
        [⟨⟨[2]⟩, [100, 100]⟩] = some [⟨⟨[2]⟩, [9, 12]⟩] ∧
    ∃ h, ReduceSumAxisZeroOp.Compute (.leaf 0) [(⟨⟨[3, 2]⟩, [1, 2, 3, 4, 5, 6]⟩ : Tensor Int)]
        [⟨⟨[2]⟩, [100, 100]⟩] = some [⟨⟨[2]⟩, h⟩] ∧
      h.length = Tensor.NumElements (⟨⟨[3, 2]⟩, [1, 2, 3, 4, 5, 6]⟩ : Tensor Int) / 3 ∧
      ∀ r, r < Tensor.NumElements (⟨⟨[3, 2]⟩, [1, 2, 3, 4, 5, 6]⟩ : Tensor Int) / 3 →
        h[r]? = some (∑ i ∈ Finset.range 3,
          ([1, 2, 3, 4, 5, 6] : List Int).getD
            (i * (Tensor.NumElements (⟨⟨[3, 2]⟩, [1, 2, 3, 4, 5, 6]⟩ : Tensor Int) / 3) + r) 0) :=
  ⟨by decide,
   ReduceSumAxisZeroOp.Compute_sums (.leaf 0) ⟨⟨[3, 2]⟩, [1, 2, 3, 4, 5, 6]⟩
    ⟨⟨[2]⟩, [100, 100]⟩ [] 3 rfl (by decide) (by decide) (by decide)⟩


/-! ## BroadCastTo -/

/-- The loops of `BroadCastToOp::Compute` write `n_times` consecutive copies of the source
buffer. -/
theorem BroadCast_loops {R : Type} [Zero R] (src out0 : List R) (n_times : Nat)
    (hout : n_times * src.length ≤ out0.length) :
    ∃ st : Nat × List R, forLoop n_times (fun _i (st : Nat × List R) => do
        let h ← forLoop src.length (fun j h => do
          let x ← load src j
          store h (st.1 + j) x) st.2
        some (st.1 + src.length, h)) (0, out0) = some st ∧
      st.2.length = out0.length ∧
      ∀ i, i < n_times → ∀ j, j < src.length →
        st.2[i * src.length + j]? = some (src.getD j 0) := by
  obtain ⟨st, hrun, -, hlen, hval⟩ := forLoop_inv
    (fun c (st : Nat × List R) => st.1 = c * src.length ∧ st.2.length = out0.length ∧
      ∀ i, i < c → ∀ j, j < src.length → st.2[i * src.length + j]? = some (src.getD j 0))
    n_times (fun _i (st : Nat × List R) => do
        let h ← forLoop src.length (fun j h => do
          let x ← load src j
          store h (st.1 + j) x) st.2
        some (st.1 + src.length, h)) (0, out0)
    ⟨by simp, rfl, fun i hi => absurd hi (Nat.not_lt_zero i)⟩
    (by
      intro c hc st ⟨hbase, hlen, hdone⟩
      obtain ⟨u, hrun, hulen, hwritten, hframe⟩ := forLoop_store src.length
        (fun j h => do
          let x ← load src j
          store h (st.1 + j) x)
        (fun j => st.1 + j) (fun j => src.getD j 0) st.2
        (by
          intro j hj g _
          simp only [load_eq_some src j hj]
          rfl)
        (by
          intro j hj
          rw [hlen, hbase]
          have := index_lt hc hj
          rw [Nat.mul_comm src.length c] at this
          exact lt_of_lt_of_le this hout)
        (by
          intro j _ j2 hj2 heq
          exact absurd (Nat.add_left_cancel heq) (Nat.ne_of_lt hj2))
      refine ⟨(st.1 + src.length, u), ?_, ?_, ?_, ?_⟩
      · show (forLoop src.length _ st.2).bind _ = _
        rw [hrun]; rfl
      · show st.1 + src.length = (c + 1) * src.length
        rw [hbase]; ring
      · exact hulen.trans hlen
      · intro i hi j hj
        show u[i * src.length + j]? = _
        rcases Nat.lt_succ_iff_lt_or_eq.mp hi with hlt | heq
        · rw [hframe (i * src.length + j)]
          · exact hdone i hlt j hj
          · intro j2 _ hcontra
            have h1 : i * src.length + j < c * src.length := by
              calc i * src.length + j < i * src.length + src.length := Nat.add_lt_add_left hj _
                _ = (i + 1) * src.length := by ring
                _ ≤ c * src.length := Nat.mul_le_mul_right _ hlt
            omega
        · subst heq
          rw [← hbase]
          exact hwritten j hj)
  exact ⟨st, hrun, hlen, hval⟩

/-- What `BroadCastToOp::Compute` leaves in the output buffer: `n_times` consecutive copies
of the source. -/
theorem BroadCast_Compute_spec {R : Type} [Zero R] (node : Node R)
    (src tpl out : Tensor R) (rest : List (Tensor R)) (n_times : Nat)
    (hn : tpl.shape.DimSize 0 = some n_times) (hw : src.WellFormed)
    (hout : n_times * src.NumElements ≤ out.handle.length) :
    ∃ h, BroadCastToOp.Compute node [src, tpl] (out :: rest) =
        some ({ out with handle := h } :: rest) ∧
      h.length = out.handle.length ∧
      ∀ i, i < n_times → ∀ j, j < src.NumElements →
        h[i * src.NumElements + j]? = some (src.handle.getD j 0) := by
  unfold Tensor.WellFormed at hw
  obtain ⟨st, hrun, hlen, hval⟩ := BroadCast_loops src.handle out.handle n_times
    (by rw [hw]; exact hout)
  rw [hw] at hrun hval
  refine ⟨st.2, ?_, hlen, hval⟩
  refine Eq.trans ?_
    (congrArg (fun o : Option (Nat × List R) =>
      o.bind (fun st => some ((⟨out.shape, st.2⟩ : Tensor R) :: rest))) hrun)
  simp only [BroadCastToOp.Compute]
  rw [hn]
  rfl

/-- Claim C9. `BroadCastToOp::Compute` replicates the source contiguously: for a source tensor
with `N` elements and a template tensor with leading dimension `n_times`, `Compute`
succeeds and afterwards `out[i * N + j] = source[j]` for all `i < n_times` and `j < N`;
and the result does not depend on the numeric content of the template. -/
theorem BroadCastToOp.Compute_replicates {R : Type} [Zero R] (node : Node R)
    (src tpl out : Tensor R) (rest : List (Tensor R)) (n_times : Nat)
    (hn : tpl.shape.DimSize 0 = some n_times) (hw : src.WellFormed)
    (hout : n_times * src.NumElements ≤ out.handle.length) :
    (∃ h, BroadCastToOp.Compute node [src, tpl] (out :: rest) =
        some ({ out with handle := h } :: rest) ∧
      h.length = out.handle.length ∧
      ∀ i, i < n_times → ∀ j, j < src.NumElements →
        h[i * src.NumElements + j]? = some (src.handle.getD j 0)) ∧
    ∀ data : List R, BroadCastToOp.Compute node [src, ⟨tpl.shape, data⟩] (out :: rest) =
      BroadCastToOp.Compute node [src, tpl] (out :: rest) :=
  ⟨BroadCast_Compute_spec node src tpl out rest n_times hn hw hout, fun _ => rfl⟩

/-- The concrete scenario of C9: `[1, 2]` replicated three times. -/
theorem BroadCastToOp.Compute_replicates_witness :
    BroadCastToOp.Compute (.leaf 0)
        [(⟨⟨[2]⟩, [1, 2]⟩ : Tensor Int), ⟨⟨[3, 2]⟩, [7, 7, 7, 7, 7, 7]⟩]
        [⟨⟨[3, 2]⟩, [0, 0, 0, 0, 0, 0]⟩] = some [⟨⟨[3, 2]⟩, [1, 2, 1, 2, 1, 2]⟩] ∧
    ((∃ h, BroadCastToOp.Compute (.leaf 0)
        [(⟨⟨[2]⟩, [1, 2]⟩ : Tensor Int), ⟨⟨[3, 2]⟩, [7, 7, 7, 7, 7, 7]⟩]
        [⟨⟨[3, 2]⟩, [0, 0, 0, 0, 0, 0]⟩] = some [⟨⟨[3, 2]⟩, h⟩] ∧
      h.length = 6 ∧
      ∀ i, i < 3 → ∀ j, j < Tensor.NumElements (⟨⟨[2]⟩, [1, 2]⟩ : Tensor Int) →
        h[i * Tensor.NumElements (⟨⟨[2]⟩, [1, 2]⟩ : Tensor Int) + j]? =
          some (([1, 2] : List Int).getD j 0)) ∧
    ∀ data : List Int, BroadCastToOp.Compute (.leaf 0)
        [(⟨⟨[2]⟩, [1, 2]⟩ : Tensor Int), ⟨⟨[3, 2]⟩, data⟩]
        [⟨⟨[3, 2]⟩, [0, 0, 0, 0, 0, 0]⟩] =
      BroadCastToOp.Compute (.leaf 0)
        [(⟨⟨[2]⟩, [1, 2]⟩ : Tensor Int), ⟨⟨[3, 2]⟩, [7, 7, 7, 7, 7, 7]⟩]
        [⟨⟨[3, 2]⟩, [0, 0, 0, 0, 0, 0]⟩]) :=
  ⟨by decide,
   BroadCastToOp.Compute_replicates (.leaf 0) ⟨⟨[2]⟩, [1, 2]⟩ ⟨⟨[3, 2]⟩, [7, 7, 7, 7, 7, 7]⟩
    ⟨⟨[3, 2]⟩, [0, 0, 0, 0, 0, 0]⟩ [] 3 rfl (by decide) (by decide)⟩


/-! ## ReduceSumAxisZero after BroadCastTo -/

/-- On an empty output list `ReduceSumAxisZeroOp::Infer` drops the leading dimension. -/
theorem ReduceSumAxisZeroOp.Infer_cons {R : Type} (node : Node R) (n : Nat) (dims : List Nat) :
    ReduceSumAxisZeroOp.Infer node [⟨n :: dims⟩] [] = some [⟨dims⟩] := by
  obtain ⟨s, hrun, hs⟩ := forLoop_inv
    (fun c (s : TensorShape) => s.dims = dims.take c)
    dims.length (fun i0 out_shape => do
      let d ← (⟨n :: dims⟩ : TensorShape).DimSize (i0 + 1)
      some (out_shape.AppendDim d)) ⟨[]⟩
    (by simp)
    (by
      intro c hc s hs
      refine ⟨s.AppendDim (dims.get ⟨c, hc⟩), ?_, ?_⟩
      · show ((n :: dims)[c + 1]?).bind _ = _
        rw [List.getElem?_cons_succ, List.getElem?_eq_getElem hc]
        rfl
      · show s.dims ++ [dims.get ⟨c, hc⟩] = dims.take (c + 1)
        rw [hs, List.take_succ, List.getElem?_eq_getElem hc]
        rfl)
  rw [List.take_length] at hs
  have hs2 : s = ⟨dims⟩ := by
    cases s; simp at hs; rw [hs]
  rw [hs2] at hrun
  refine Eq.trans ?_
    (congrArg (fun o : Option TensorShape => o.bind (fun s => some [s])) hrun)
  rfl

/-- Claim C10. `ReduceSumAxisZero` undoes `BroadCastTo` up to the factor `n`: for a tensor `x`, a
positive `n` and a template of shape `(n, shape of x)`, `BroadCastToOp::Compute` on
`(x, template)` into a tensor `bc` of the shape inferred by `BroadCastToOp::Infer`,
followed by `ReduceSumAxisZeroOp::Compute` on the result into a tensor `red` of the shape
inferred by `ReduceSumAxisZeroOp::Infer`, succeeds, and `red` has the shape of `x` and
holds `n * x[r]` at every index `r`. -/
theorem ReduceSumAxisZero_BroadCastTo_roundtrip {R : Type} [Semiring R]
    (node1 node2 : Node R) (x tpl bc red : Tensor R) (n : Nat)
    (hn : 0 < n) (htpl : tpl.shape = ⟨n :: x.shape.dims⟩) (hx : x.WellFormed)
    (hbcs : BroadCastToOp.Infer node1 [x.shape, tpl.shape] [] = some [bc.shape])
    (hbcw : bc.WellFormed)
    (hreds : ReduceSumAxisZeroOp.Infer node2 [bc.shape] [] = some [red.shape])
    (hredw : red.WellFormed) :
    ∃ h1 h2, BroadCastToOp.Compute node1 [x, tpl] [bc] = some [⟨bc.shape, h1⟩] ∧
      ReduceSumAxisZeroOp.Compute node2 [⟨bc.shape, h1⟩] [red] = some [⟨red.shape, h2⟩] ∧
      red.shape = x.shape ∧ h2.length = x.NumElements ∧
      ∀ r, r < x.NumElements → h2[r]? = some ((n : R) * x.handle.getD r 0) := by
  have hbc : bc.shape = ⟨n :: x.shape.dims⟩ := by
    simp only [BroadCastToOp.Infer, Option.some.injEq, List.cons.injEq, and_true] at hbcs
    rw [← hbcs, htpl]
  have hred : red.shape = x.shape := by
    rw [hbc, ReduceSumAxisZeroOp.Infer_cons] at hreds
    simp only [Option.some.injEq, List.cons.injEq, and_true] at hreds
    rw [← hreds]
  have hbcN : bc.NumElements = n * x.NumElements := by
    simp [Tensor.NumElements, TensorShape.NumElements, hbc]
  have hredN : red.handle.length = x.NumElements := by
    unfold Tensor.WellFormed at hredw
    rw [hredw, Tensor.NumElements, hred]; rfl
  have hbcD : tpl.shape.DimSize 0 = some n := by rw [htpl]; simp [TensorShape.DimSize]
  obtain ⟨h1, hrun1, hlen1, hval1⟩ := BroadCast_Compute_spec node1 x tpl bc [] n hbcD hx
    (by unfold Tensor.WellFormed at hbcw; rw [hbcw, hbcN])
  have hN2 : Tensor.NumElements (⟨bc.shape, h1⟩ : Tensor R) / n = x.NumElements := by
    show bc.NumElements / n = x.NumElements
    rw [hbcN, Nat.mul_div_cancel_left _ hn]
  obtain ⟨h2, hrun2, hlen2, hval2⟩ := ReduceSum_Compute_spec node2
    (⟨bc.shape, h1⟩ : Tensor R) red [] n (by rw [hbc]; simp [TensorShape.DimSize]) hn
    (by unfold Tensor.WellFormed at hbcw ⊢; exact hlen1.trans hbcw)
    (by rw [hN2, hredN])
  refine ⟨h1, h2, hrun1, hrun2, hred, hlen2.trans hredN, ?_⟩
  intro r hr
  rw [hN2] at hval2
  rw [hval2 r hr]
  congr 1
  have hterm : ∀ i ∈ Finset.range n,
      (⟨bc.shape, h1⟩ : Tensor R).handle.getD (i * x.NumElements + r) 0 =
        x.handle.getD r 0 := by
    intro i hi
    show h1.getD (i * x.NumElements + r) 0 = _
    rw [List.getD_eq_getElem?_getD, hval1 i (Finset.mem_range.mp hi) r hr]
    rfl
  rw [Finset.sum_congr rfl hterm, Finset.sum_const, Finset.card_range, nsmul_eq_mul]

/-- The concrete scenario of C10: `[1, 2]` broadcast three times and summed gives `[3, 6]`. -/
theorem ReduceSumAxisZero_BroadCastTo_roundtrip_witness :
    ∃ h1 h2, BroadCastToOp.Compute (.leaf 0)
        [(⟨⟨[2]⟩, [1, 2]⟩ : Tensor Int), ⟨⟨[3, 2]⟩, [7, 7, 7, 7, 7, 7]⟩]
        [⟨⟨[3, 2]⟩, [0, 0, 0, 0, 0, 0]⟩] = some [⟨⟨[3, 2]⟩, h1⟩] ∧
      ReduceSumAxisZeroOp.Compute (.leaf 1) [(⟨⟨[3, 2]⟩, h1⟩ : Tensor Int)]
        [⟨⟨[2]⟩, [100, 100]⟩] = some [⟨⟨[2]⟩, h2⟩] ∧
      (⟨[2]⟩ : TensorShape) = ⟨[2]⟩ ∧
      h2.length = Tensor.NumElements (⟨⟨[2]⟩, [1, 2]⟩ : Tensor Int) ∧
      ∀ r, r < Tensor.NumElements (⟨⟨[2]⟩, [1, 2]⟩ : Tensor Int) →
        h2[r]? = some (((3 : Nat) : Int) * ([1, 2] : List Int).getD r 0) :=
  ReduceSumAxisZero_BroadCastTo_roundtrip (.leaf 0) (.leaf 1) ⟨⟨[2]⟩, [1, 2]⟩
    ⟨⟨[3, 2]⟩, [7, 7, 7, 7, 7, 7]⟩ ⟨⟨[3, 2]⟩, [0, 0, 0, 0, 0, 0]⟩ ⟨⟨[2]⟩, [100, 100]⟩ 3
    (by decide) rfl (by decide) (by decide) (by decide) (by decide) (by decide)

/-! ## Gradient of Devide -/

/-- Claim C13. `DevideOp::Gradient` on a Devide node with inputs `(input0, input1)` and
incoming gradient `g` leaves exactly two expressions: `(g * node) / input1`, in which
`node` is the forward Devide node itself, and `(-1 * g) / input1`. -/
theorem DevideOp.Gradient_exact {R : Type} [Neg R] [One R] (name : String)
    (attrs : List (String × AttrValue R)) (input0 input1 g : Node R)
    (out_grads : List (Node R)) :
    DevideOp.Gradient (.op2 name attrs input0 input1) g out_grads =
      some [(g.mul (.op2 name attrs input0 input1)).div input1,
            (Node.constMul (-1) g).div input1] ∧
    (DevideOp.Gradient (.op2 name attrs input0 input1) g out_grads).map List.length =
      some 2 ∧
    (g.mul (.op2 name attrs input0 input1)).div input1 =
      .op2 "Devide" [] (.op2 "Multiply" [] g (.op2 name attrs input0 input1)) input1 ∧
    (Node.constMul (-1) g).div input1 =
      .op2 "Devide" [] (.op1 "MultiplyByConst" [("const_val", .float (-1))] g) input1 := by
  exact ⟨rfl, rfl, rfl, rfl⟩

/-! ## Relu -/

/-- The loop shared by the unary elementwise operators. -/
theorem unary_loop {R : Type} [Zero R] (f : R → R) (a h0 : List R) (n : Nat)
    (ha : n ≤ a.length) (hh : n ≤ h0.length) :
    ∃ h, forLoop n (fun i h => do
        let x ← load a i
        store h i (f x)) h0 = some h ∧ h.length = h0.length ∧
      ∀ i, i < n → h[i]? = some (f (a.getD i 0)) := by
  obtain ⟨h, hrun, hlen, hdone, -⟩ := forLoop_store n
    (fun i h => do
        let x ← load a i
        store h i (f x)) id
    (fun i => f (a.getD i 0)) h0
    (by
      intro i hi h _
      simp only [load_eq_some a i (lt_of_lt_of_le hi ha), id]
      rfl)
    (fun i hi => lt_of_lt_of_le hi hh)
    (fun i _ j hj => Nat.ne_of_lt hj)
  exact ⟨h, hrun, hlen, hdone⟩

/-- Claim C16. `ReluOp::Compute` is the pointwise positive part: for an input tensor `x`
and an output tensor with the same number of elements, `Compute` succeeds and afterwards
`out[i] = max(x[i], 0)` for every index `i`; every output element is non-negative and
equals `x[i]` exactly when `x[i] ≥ 0`. -/
theorem ReluOp.Compute_positive_part {K : Type} [LinearOrderedField K] (node : Node K)
    (x out : Tensor K) (rest : List (Tensor K))
    (hx : x.handle.length = out.NumElements) (hOw : out.WellFormed) :
    ∃ h, ReluOp.Compute node [x] (out :: rest) = some ({ out with handle := h } :: rest) ∧
      h.length = out.NumElements ∧
      ∀ i, i < out.NumElements →
        h[i]? = some (max (x.handle.getD i 0) 0) ∧
        0 ≤ max (x.handle.getD i 0) 0 ∧
        (max (x.handle.getD i 0) 0 = x.handle.getD i 0 ↔ 0 ≤ x.handle.getD i 0) := by
  unfold Tensor.WellFormed at hOw
  obtain ⟨h, hrun, hlen, hval⟩ := unary_loop (fun v : K => if v < 0 then 0 else v)
    x.handle out.handle out.NumElements (le_of_eq hx.symm) (le_of_eq hOw.symm)
  refine ⟨h, ?_, hlen.trans hOw, ?_⟩
  · simp only [ReluOp.Compute]
    rw [hrun]
    rfl
  · intro i hi
    refine ⟨?_, le_max_right _ _, max_eq_left_iff⟩
    rw [hval i hi]
    congr 1
    by_cases hneg : x.handle.getD i 0 < 0
    · rw [if_pos hneg, max_eq_right (le_of_lt hneg)]
    · rw [if_neg hneg, max_eq_left (not_lt.mp hneg)]

/-- The concrete scenario of C16: `Relu([-1, 0, 2, -3]) = [0, 0, 2, 0]`. -/
theorem ReluOp.Compute_positive_part_witness :
    ReluOp.Compute (.leaf 0) [(⟨⟨[4]⟩, [-1, 0, 2, -3]⟩ : Tensor ℚ)] [⟨⟨[4]⟩, [9, 9, 9, 9]⟩] =
      some [⟨⟨[4]⟩, [0, 0, 2, 0]⟩] ∧
    ∃ h, ReluOp.Compute (.leaf 0) [(⟨⟨[4]⟩, [-1, 0, 2, -3]⟩ : Tensor ℚ)]
        [⟨⟨[4]⟩, [9, 9, 9, 9]⟩] = some [⟨⟨[4]⟩, h⟩] ∧
      h.length = Tensor.NumElements (⟨⟨[4]⟩, [9, 9, 9, 9]⟩ : Tensor ℚ) ∧
      ∀ i, i < Tensor.NumElements (⟨⟨[4]⟩, [9, 9, 9, 9]⟩ : Tensor ℚ) →
        h[i]? = some (max (([-1, 0, 2, -3] : List ℚ).getD i 0) 0) ∧
        0 ≤ max (([-1, 0, 2, -3] : List ℚ).getD i 0) 0 ∧
        (max (([-1, 0, 2, -3] : List ℚ).getD i 0) 0 = ([-1, 0, 2, -3] : List ℚ).getD i 0 ↔
          0 ≤ ([-1, 0, 2, -3] : List ℚ).getD i 0) :=
  ⟨by
    simp [ReluOp.Compute, forLoop, load, store, Tensor.NumElements, TensorShape.NumElements],
   ReluOp.Compute_positive_part (.leaf 0) ⟨⟨[4]⟩, [-1, 0, 2, -3]⟩ ⟨⟨[4]⟩, [9, 9, 9, 9]⟩ []
    (by decide) (by decide)⟩

/-- Claim C17 (defect). `ReluOp::Gradient` on a Relu node, which has one input, with an
empty gradient list leaves the list empty: it has no entry, where the claim has one. -/
theorem ReluOp.Gradient_empty_defect :
    (Node.GetInputNodes (.op1 "Relu" [] (.leaf 0) : Node Int)).length = 1 ∧
    ReluOp.Gradient (.op1 "Relu" [] (.leaf 0) : Node Int) (.leaf 1) [] = some [] ∧
    (ReluOp.Gradient (.op1 "Relu" [] (.leaf 0) : Node Int) (.leaf 1) []).map List.length =
      some 0 := by
  exact ⟨rfl, rfl, rfl⟩

/-! ## Gradient of Softmax -/

/-- Claim C18 (counterexample). `SoftmaxOp::Gradient` on a Softmax node returns normally:
the result is not the failure `none`, it is the unchanged empty gradient list together
with one line on the standard output. -/
theorem SoftmaxOp.Gradient_returns_normally :
    SoftmaxOp.Gradient (SoftmaxOperator (.leaf 0) : Node Int) (.leaf 1) [] [] ≠ none ∧
    SoftmaxOp.Gradient (SoftmaxOperator (.leaf 0) : Node Int) (.leaf 1) [] [] =
      some ([], ["Softmax Op has no gradient function"]) := by
  decide

/-- Claim C18 (amended). `SoftmaxOp::Gradient` writes the line "Softmax Op has no gradient
function" to the standard output and returns normally, with the gradient list as the
caller passed it. -/
theorem SoftmaxOp.Gradient_logs {R : Type} (node in_grad : Node R)
    (out_grads : List (Node R)) (cout : List String) :
    SoftmaxOp.Gradient node in_grad out_grads cout =
      some (out_grads, cout ++ ["Softmax Op has no gradient function"]) := rfl

/-! ## Shape inference -/

/-- The `Infer` of every class but `ReduceSumAxisZeroOp` assigns the output list: its
result does not depend on what the list held before the call. -/
theorem Op.Infer_assigns {R : Type} (op : Op) (node : Node R)
    (in_shapes out1 out2 : List TensorShape) (hk : op.kind ≠ .ReduceSumAxisZeroOp) :
    Op.Infer op node in_shapes out1 = Op.Infer op node in_shapes out2 := by
  obtain ⟨kind, name⟩ := op
  cases kind <;> first | rfl | exact absurd rfl hk

/-- Claim C19 (defect). `ReduceSumAxisZeroOp::Infer` appends to the output list: on the
input shape `(3, 2)` the first call, on an empty list, leaves `[(2)]`, and a second call
with the same input shapes on the list filled by the first leaves `[(2), (2)]`. -/
theorem ReduceSumAxisZeroOp.Infer_appends_defect :
    ReduceSumAxisZeroOp.Infer (.leaf 0 : Node Int) [⟨[3, 2]⟩] [] = some [⟨[2]⟩] ∧
    ReduceSumAxisZeroOp.Infer (.leaf 0 : Node Int) [⟨[3, 2]⟩] [⟨[2]⟩] =
      some [⟨[2]⟩, ⟨[2]⟩] ∧
    Op.Infer ⟨.ReduceSumAxisZeroOp, some "ReduceSumAxisZero"⟩ (.leaf 0 : Node Int)
        [⟨[3, 2]⟩] [⟨[2]⟩] ≠
      Op.Infer ⟨.ReduceSumAxisZeroOp, some "ReduceSumAxisZero"⟩ (.leaf 0 : Node Int)
        [⟨[3, 2]⟩] [] := by
  decide

/-! ## Replication and summation are adjoint -/

/-- A sum over `n * N` consecutive indices, split into `n` blocks of `N`. -/
theorem sum_range_blocks {M : Type} [AddCommMonoid M] (f : Nat → M) (n N : Nat) :
    ∑ p ∈ Finset.range (n * N), f p =
      ∑ i ∈ Finset.range n, ∑ j ∈ Finset.range N, f (i * N + j) := by
  induction n with
  | zero => simp
  | succ k ih =>
    rw [Nat.succ_mul, Finset.sum_range_add, ih, Finset.sum_range_succ]

theorem getD_of_getElem? {R : Type} {l : List R} {i : Nat} {v d : R} (h : l[i]? = some v) :
    l.getD i d = v := by
  rw [List.getD_eq_getElem?_getD, h]
  rfl

/-- Claim C20. Replication and axis-0 summation are adjoint: for a source tensor `x` with
`N` elements, `n ≥ 1` and a tensor `y` with leading dimension `n` and `n * N` elements,
the sum over `i < n * N` of `BroadCastTo(x)[i] * y[i]` equals the sum over `r < N` of
`x[r] * ReduceSumAxisZero(y)[r]`, both `Compute` calls succeeding; and
`ReduceSumAxisZeroOp::Gradient` returns `{BroadCastTo(g, input0)}`, `BroadCastToOp::Gradient`
returns `{ReduceSumAxisZero(g), Zeros(template input)}`. -/
theorem BroadCastTo_ReduceSumAxisZero_adjoint {R : Type} [CommSemiring R]
    (node1 node2 : Node R) (x tpl y bc rs : Tensor R) (n : Nat)
    (hn : 1 ≤ n) (htpl : tpl.shape.DimSize 0 = some n) (hx : x.WellFormed)
    (hy : y.shape.DimSize 0 = some n) (hyw : y.WellFormed)
    (hyN : y.NumElements = n * x.NumElements)
    (hbc : bc.handle.length = n * x.NumElements) (hrs : rs.handle.length = x.NumElements) :
    (∃ h1 h2, BroadCastToOp.Compute node1 [x, tpl] [bc] = some [⟨bc.shape, h1⟩] ∧
      ReduceSumAxisZeroOp.Compute node2 [y] [rs] = some [⟨rs.shape, h2⟩] ∧
      ∑ i ∈ Finset.range (n * x.NumElements), h1.getD i 0 * y.handle.getD i 0 =
        ∑ r ∈ Finset.range x.NumElements, x.handle.getD r 0 * h2.getD r 0) ∧
    (∀ (name : String) (attrs : List (String × AttrValue R)) (input0 g : Node R)
        (out_grads : List (Node R)),
      ReduceSumAxisZeroOp.Gradient (.op1 name attrs input0) g out_grads =
        some [BroadCastToOperator g input0]) ∧
    (∀ (name : String) (attrs : List (String × AttrValue R)) (input0 input1 g : Node R)
        (out_grads : List (Node R)),
      BroadCastToOp.Gradient (.op2 name attrs input0 input1) g out_grads =
        some [ReduceSumAxisZeroOperator g, ZerosOperator input1]) := by
  refine ⟨?_, fun _ _ _ _ _ => rfl, fun _ _ _ _ _ _ => rfl⟩
  obtain ⟨h1, hrun1, -, hval1⟩ := BroadCast_Compute_spec node1 x tpl bc [] n htpl hx
    (le_of_eq hbc.symm)
  have hdiv : y.NumElements / n = x.NumElements := by
    rw [hyN, Nat.mul_div_cancel_left _ hn]
  obtain ⟨h2, hrun2, -, hval2⟩ := ReduceSum_Compute_spec node2 y rs [] n hy hn hyw
    (by rw [hdiv, hrs])
  rw [hdiv] at hval2
  refine ⟨h1, h2, hrun1, hrun2, ?_⟩
  rw [sum_range_blocks]
  have hL : ∀ i ∈ Finset.range n, ∑ j ∈ Finset.range x.NumElements,
      h1.getD (i * x.NumElements + j) 0 * y.handle.getD (i * x.NumElements + j) 0 =
      ∑ j ∈ Finset.range x.NumElements,
        x.handle.getD j 0 * y.handle.getD (i * x.NumElements + j) 0 := by
    intro i hi
    apply Finset.sum_congr rfl
    intro j hj
    rw [getD_of_getElem? (hval1 i (Finset.mem_range.mp hi) j (Finset.mem_range.mp hj))]
  have hR : ∀ r ∈ Finset.range x.NumElements, x.handle.getD r 0 * h2.getD r 0 =
      ∑ i ∈ Finset.range n, x.handle.getD r 0 * y.handle.getD (i * x.NumElements + r) 0 := by
    intro r hr
    rw [getD_of_getElem? (hval2 r (Finset.mem_range.mp hr)), Finset.mul_sum]
  rw [Finset.sum_congr rfl hL, Finset.sum_congr rfl hR, Finset.sum_comm]

/-- The concrete scenario of C20: `x = [1, 2]`, `n = 3`, `y = [1, 2, 3, 4, 5, 6]`. -/
theorem BroadCastTo_ReduceSumAxisZero_adjoint_witness :
    ∃ h1 h2, BroadCastToOp.Compute (.leaf 0)
        [(⟨⟨[2]⟩, [1, 2]⟩ : Tensor Int), ⟨⟨[3, 2]⟩, [7, 7, 7, 7, 7, 7]⟩]
        [⟨⟨[3, 2]⟩, [0, 0, 0, 0, 0, 0]⟩] = some [⟨⟨[3, 2]⟩, h1⟩] ∧
      ReduceSumAxisZeroOp.Compute (.leaf 1) [(⟨⟨[3, 2]⟩, [1, 2, 3, 4, 5, 6]⟩ : Tensor Int)]
        [⟨⟨[2]⟩, [0, 0]⟩] = some [⟨⟨[2]⟩, h2⟩] ∧
      ∑ i ∈ Finset.range (3 * Tensor.NumElements (⟨⟨[2]⟩, [1, 2]⟩ : Tensor Int)),
          h1.getD i 0 * ([1, 2, 3, 4, 5, 6] : List Int).getD i 0 =
        ∑ r ∈ Finset.range (Tensor.NumElements (⟨⟨[2]⟩, [1, 2]⟩ : Tensor Int)),
          ([1, 2] : List Int).getD r 0 * h2.getD r 0 :=
  (BroadCastTo_ReduceSumAxisZero_adjoint (.leaf 0) (.leaf 1) ⟨⟨[2]⟩, [1, 2]⟩
    ⟨⟨[3, 2]⟩, [7, 7, 7, 7, 7, 7]⟩ ⟨⟨[3, 2]⟩, [1, 2, 3, 4, 5, 6]⟩
    ⟨⟨[3, 2]⟩, [0, 0, 0, 0, 0, 0]⟩ ⟨⟨[2]⟩, [0, 0]⟩ 3
    (by decide) rfl (by decide) rfl (by decide) (by decide) (by decide) (by decide)).1

/-! ## SoftmaxCrossEntropy -/

/-- The first inner loop of `SoftmaxCrossEntropyOp::Compute`: it leaves the exponentials of
row `i` in `tmp` and their sum in `sum`. -/
theorem SoftmaxCrossEntropy_exp_loop {K : Type} [Field K] (exp : K → K) (yh tmp0 : List K)
    (n i : Nat) (htmp : tmp0.length = n) (hy : ∀ j, j < n → n * i + j < yh.length) :
    ∃ tmp1, forLoop n (fun j (row : K × List K) => do
        let x ← load yh (n * i + j)
        let val := exp x
        let tmp ← store row.2 j val
        some (row.1 + val, tmp)) (0, tmp0) =
        some (∑ j ∈ Finset.range n, exp (yh.getD (n * i + j) 0), tmp1) ∧
      tmp1.length = n ∧ ∀ j, j < n → tmp1[j]? = some (exp (yh.getD (n * i + j) 0)) := by
  obtain ⟨st, hrun, hsum, hlen, hval⟩ := forLoop_inv
    (fun c (row : K × List K) =>
      row.1 = ∑ j ∈ Finset.range c, exp (yh.getD (n * i + j) 0) ∧ row.2.length = n ∧
      ∀ j, j < c → row.2[j]? = some (exp (yh.getD (n * i + j) 0)))
    n (fun j (row : K × List K) => do
        let x ← load yh (n * i + j)
        let val := exp x
        let tmp ← store row.2 j val
        some (row.1 + val, tmp)) (0, tmp0)
    ⟨by simp, htmp, fun j hj => absurd hj (Nat.not_lt_zero j)⟩
    (by
      intro c hc row ⟨hsum, hlen, hval⟩
      refine ⟨(row.1 + exp (yh.getD (n * i + c) 0),
        row.2.set c (exp (yh.getD (n * i + c) 0))), ?_, ?_, ?_, ?_⟩
      · simp only [load_eq_some yh (n * i + c) (hy c hc)]
        show (store row.2 c (exp (yh.getD (n * i + c) 0))).bind _ = _
        rw [store_eq_some row.2 c _ (by rw [hlen]; exact hc)]
        rfl
      · show row.1 + _ = _
        rw [hsum, Finset.sum_range_succ]
      · show (row.2.set c _).length = n
        rw [List.length_set, hlen]
      · intro j hj
        show (row.2.set c _)[j]? = _
        rcases Nat.lt_succ_iff_lt_or_eq.mp hj with hlt | heq
        · rw [List.getElem?_set_ne (Nat.ne_of_gt hlt)]
          exact hval j hlt
        · subst heq
          rw [List.getElem?_set_self (by rw [hlen]; exact hc)])
  refine ⟨st.2, ?_, hlen, hval⟩
  rw [hrun, ← hsum]

/-- The second inner loop of `SoftmaxCrossEntropyOp::Compute`: it adds the cross-entropy
terms of row `i` to the running total. -/
theorem SoftmaxCrossEntropy_log_loop {K : Type} [Field K] (log : K → K) (lh tmp1 : List K)
    (e : Nat → K) (sum total : K) (n i : Nat) (htmp : tmp1.length = n)
    (hval : ∀ j, j < n → tmp1[j]? = some (e j))
    (hl : ∀ j, j < n → n * i + j < lh.length) :
    ∃ tmp2, forLoop n (fun j (acc : K × List K) => do
        let t ← load acc.2 j
        let tmp ← store acc.2 j (t / sum)
        let l ← load lh (n * i + j)
        some (acc.1 + (-l) * log (t / sum), tmp)) (total, tmp1) =
        some (total + ∑ j ∈ Finset.range n, (-(lh.getD (n * i + j) 0)) * log (e j / sum),
          tmp2) ∧
      tmp2.length = n := by
  obtain ⟨st, hrun, hsum, hlen, -⟩ := forLoop_inv
    (fun c (acc : K × List K) =>
      acc.1 = total + ∑ j ∈ Finset.range c, (-(lh.getD (n * i + j) 0)) * log (e j / sum) ∧
      acc.2.length = n ∧ ∀ j, c ≤ j → j < n → acc.2[j]? = some (e j))
    n (fun j (acc : K × List K) => do
        let t ← load acc.2 j
        let tmp ← store acc.2 j (t / sum)
        let l ← load lh (n * i + j)
        some (acc.1 + (-l) * log (t / sum), tmp)) (total, tmp1)
    ⟨by simp, htmp, fun j _ hj => hval j hj⟩
    (by
      intro c hc acc ⟨hsum, hlen, hrest⟩
      have hload : load acc.2 c = some (e c) := hrest c (le_refl c) hc
      refine ⟨(acc.1 + (-(lh.getD (n * i + c) 0)) * log (e c / sum),
        acc.2.set c (e c / sum)), ?_, ?_, ?_, ?_⟩
      · simp only [hload]
        show (store acc.2 c (e c / sum)).bind _ = _
        rw [store_eq_some acc.2 c _ (by rw [hlen]; exact hc)]
        show (load lh (n * i + c)).bind _ = _
        rw [load_eq_some lh (n * i + c) (hl c hc)]
        rfl
      · show acc.1 + _ = _
        rw [hsum, Finset.sum_range_succ, add_assoc]
      · show (acc.2.set c _).length = n
        rw [List.length_set, hlen]
      · intro j hcj hj
        show (acc.2.set c _)[j]? = _
        rw [List.getElem?_set_ne (by omega)]
        exact hrest j (by omega) hj)
  refine ⟨st.2, ?_, hlen⟩
  rw [hrun, ← hsum]

/-- The loop over the rows of `SoftmaxCrossEntropyOp::Compute` leaves the sum of the row
cross-entropies in `total_sum`. -/
theorem SoftmaxCrossEntropy_rows_loop {K : Type} [Field K] (exp log : K → K)
    (yh lh : List K) (m n : Nat) (hy : m * n ≤ yh.length) (hl : m * n ≤ lh.length) :
    ∃ tmp, forLoop m (fun i (st : K × List K) => do
        let row ← forLoop n (fun j (row : K × List K) => do
          let x ← load yh (n * i + j)
          let val := exp x
          let tmp ← store row.2 j val
          some (row.1 + val, tmp)) (0, st.2)
        let sum := row.1
        forLoop n (fun j (acc : K × List K) => do
          let t ← load acc.2 j
          let tmp ← store acc.2 j (t / sum)
          let l ← load lh (n * i + j)
          some (acc.1 + (-l) * log (t / sum), tmp)) (st.1, row.2)) (0, List.replicate n 0) =
      some (∑ i ∈ Finset.range m, crossEntropyRow exp log yh lh n i, tmp) := by
  obtain ⟨st, hrun, hsum, -⟩ := forLoop_inv
    (fun c (st : K × List K) =>
      st.1 = ∑ i ∈ Finset.range c, crossEntropyRow exp log yh lh n i ∧ st.2.length = n)
    m (fun i (st : K × List K) => do
        let row ← forLoop n (fun j (row : K × List K) => do
          let x ← load yh (n * i + j)
          let val := exp x
          let tmp ← store row.2 j val
          some (row.1 + val, tmp)) (0, st.2)
        let sum := row.1
        forLoop n (fun j (acc : K × List K) => do
          let t ← load acc.2 j
          let tmp ← store acc.2 j (t / sum)
          let l ← load lh (n * i + j)
          some (acc.1 + (-l) * log (t / sum), tmp)) (st.1, row.2)) (0, List.replicate n 0)
    ⟨by simp, by simp⟩
    (by
      intro i hi st ⟨hsum, hlen⟩
      obtain ⟨tmp1, hrun1, hlen1, hval1⟩ := SoftmaxCrossEntropy_exp_loop exp yh st.2 n i hlen
        (fun j hj => lt_of_lt_of_le (index_lt hi hj) hy)
      obtain ⟨tmp2, hrun2, hlen2⟩ := SoftmaxCrossEntropy_log_loop log lh tmp1
        (fun j => exp (yh.getD (n * i + j) 0))
        (∑ j ∈ Finset.range n, exp (yh.getD (n * i + j) 0)) st.1 n i hlen1 hval1
        (fun j hj => lt_of_lt_of_le (index_lt hi hj) hl)
      refine ⟨(st.1 + ∑ j ∈ Finset.range n, (-(lh.getD (n * i + j) 0)) *
        log (exp (yh.getD (n * i + j) 0) / ∑ j ∈ Finset.range n, exp (yh.getD (n * i + j) 0)),
        tmp2), ?_, ?_, hlen2⟩
      · show (forLoop n _ (0, st.2)).bind _ = _
        rw [hrun1]
        exact hrun2
      · show st.1 + _ = _
        rw [hsum, Finset.sum_range_succ]
        rfl)
  exact ⟨st.2, by rw [hrun, ← hsum]⟩

/-- What `SoftmaxCrossEntropyOp::Compute` leaves in `out[0]`: the sum of the row
cross-entropies divided by the number of rows. -/
theorem SoftmaxCrossEntropy_Compute_spec {K : Type} [Field K] (exp log : K → K)
    (node : Node K) (y y_ out : Tensor K) (rest : List (Tensor K)) (m n : Nat)
    (hy : y.shape = ⟨[m, n]⟩) (hyw : y.WellFormed) (hl : m * n ≤ y_.handle.length)
    (ho : 0 < out.handle.length) :
    SoftmaxCrossEntropyOp.Compute exp log node [y, y_] (out :: rest) =
      some (⟨out.shape, out.handle.set 0
        ((∑ i ∈ Finset.range m, crossEntropyRow exp log y.handle y_.handle n i) / (m : K))⟩
        :: rest) := by
  obtain ⟨tmp, hrun⟩ := SoftmaxCrossEntropy_rows_loop exp log y.handle y_.handle m n
    (le_of_eq (wellFormed_matrix hy hyw).symm) hl
  have hstore := store_eq_some out.handle 0
    ((∑ i ∈ Finset.range m, crossEntropyRow exp log y.handle y_.handle n i) / (m : K)) ho
  have key := congrArg (fun o : Option (K × List K) => o.bind (fun st =>
    (store out.handle 0 (st.1 / (m : K))).bind
      (fun h => some ((⟨out.shape, h⟩ : Tensor K) :: rest)))) hrun
  refine Eq.trans ?_ (key.trans ?_)
  · simp only [SoftmaxCrossEntropyOp.Compute]
    rw [hy]
    rfl
  · show (store out.handle 0 _).bind _ = _
    rw [hstore]
    rfl

/-- Claim C11. `SoftmaxCrossEntropyOp::Compute` returns the mean cross-entropy: for `m × n`
logits `y` and `m × n` labels `y_` with `m ≥ 1` and `n ≥ 1`, in exact arithmetic (for the
reals with their `exp` and `log`, and for every other field and pair of functions),
`Compute` succeeds and `out[0]` is `(1/m)` times the sum over `i` and `j` of
`-y_[i,j] * log(exp(y[i,j]) / Σ_j' exp(y[i,j']))`; when every row of `y_` is one-hot with
true class `c i`, `out[0]` is `-(1/m)` times the sum over `i` of
`log(softmax(y)[i, c i])`. -/
theorem SoftmaxCrossEntropyOp.Compute_mean_cross_entropy {K : Type} [Field K]
    (exp log : K → K) (node : Node K) (y y_ out : Tensor K) (rest : List (Tensor K))
    (m n : Nat) (_hm : 1 ≤ m) (_hn : 1 ≤ n)
    (hy : y.shape = ⟨[m, n]⟩) (hyw : y.WellFormed)
    (hl : y_.shape = ⟨[m, n]⟩) (hlw : y_.WellFormed) (ho : 0 < out.handle.length) :
    ∃ h, SoftmaxCrossEntropyOp.Compute exp log node [y, y_] (out :: rest) =
        some ({ out with handle := h } :: rest) ∧
      h.length = out.handle.length ∧
      h[0]? = some ((1 / (m : K)) * ∑ i ∈ Finset.range m, ∑ j ∈ Finset.range n,
        (-(y_.handle.getD (n * i + j) 0)) *
          log (exp (y.handle.getD (n * i + j) 0) /
            ∑ j' ∈ Finset.range n, exp (y.handle.getD (n * i + j') 0))) ∧
      ∀ c : Nat → Nat, (∀ i, i < m → c i < n) →
        (∀ i, i < m → ∀ j, j < n →
          y_.handle.getD (n * i + j) 0 = if j = c i then 1 else 0) →
        h[0]? = some (-(1 / (m : K)) *
          ∑ i ∈ Finset.range m, log (softmaxRef exp y.handle n i (c i))) := by
  have hrun := SoftmaxCrossEntropy_Compute_spec exp log node y y_ out rest m n hy hyw
    (le_of_eq (wellFormed_matrix hl hlw).symm) ho
  refine ⟨_, hrun, by simp, ?_, ?_⟩
  · rw [List.getElem?_set_self ho]
    congr 1
    rw [div_eq_mul_inv, mul_comm, one_div]
    rfl
  · intro c hc hone
    rw [List.getElem?_set_self ho]
    congr 1
    have hrow : ∀ i ∈ Finset.range m,
        crossEntropyRow exp log y.handle y_.handle n i =
          -log (softmaxRef exp y.handle n i (c i)) := by
      intro i hi
      have hi2 : i < m := Finset.mem_range.mp hi
      unfold crossEntropyRow
      rw [Finset.sum_eq_single (c i)]
      · rw [hone i hi2 (c i) (hc i hi2), if_pos rfl]
        ring
      · intro j hj hne
        rw [hone i hi2 j (Finset.mem_range.mp hj), if_neg hne]
        ring
      · intro hnot
        exact absurd (Finset.mem_range.mpr (hc i hi2)) hnot
    rw [Finset.sum_congr rfl hrow, Finset.sum_neg_distrib]
    ring

/-- The concrete scenario of C11 over the reals: one row of logits `[0, 0]` with the
one-hot label `[1, 0]`. -/
theorem SoftmaxCrossEntropyOp.Compute_mean_cross_entropy_witness :
    ∃ h, SoftmaxCrossEntropyOp.Compute Real.exp Real.log (.leaf 0)
        [(⟨⟨[1, 2]⟩, [0, 0]⟩ : Tensor ℝ), ⟨⟨[1, 2]⟩, [1, 0]⟩] [⟨⟨[1]⟩, [5]⟩] =
        some [⟨⟨[1]⟩, h⟩] ∧
      h[0]? = some ((1 / ((1 : Nat) : ℝ)) * ∑ i ∈ Finset.range 1, ∑ j ∈ Finset.range 2,
        (-(([1, 0] : List ℝ).getD (2 * i + j) 0)) *
          Real.log (Real.exp (([0, 0] : List ℝ).getD (2 * i + j) 0) /
            ∑ j' ∈ Finset.range 2, Real.exp (([0, 0] : List ℝ).getD (2 * i + j') 0))) ∧
      h[0]? = some (-(1 / ((1 : Nat) : ℝ)) *
        ∑ i ∈ Finset.range 1, Real.log (softmaxRef Real.exp ([0, 0] : List ℝ) 2 i 0)) := by
  obtain ⟨h, h1, -, h3, h4⟩ := SoftmaxCrossEntropyOp.Compute_mean_cross_entropy
    Real.exp Real.log (.leaf 0) (⟨⟨[1, 2]⟩, [0, 0]⟩ : Tensor ℝ) ⟨⟨[1, 2]⟩, [1, 0]⟩
    ⟨⟨[1]⟩, [5]⟩ [] 1 2 (by decide) (by decide) rfl
    (by simp [Tensor.WellFormed, Tensor.NumElements, TensorShape.NumElements]) rfl
    (by simp [Tensor.WellFormed, Tensor.NumElements, TensorShape.NumElements]) (by simp)
  refine ⟨h, h1, h3, h4 (fun _ => 0) (fun _ _ => Nat.zero_lt_two) ?_⟩
  intro i hi j hj
  interval_cases i
  interval_cases j <;> simp

/-! ## Evaluation of gradient expressions -/

theorem ofName_Multiply : OpKind.ofName "Multiply" = some .MultiplyOp := by decide

theorem ofName_MultiplyByConst : OpKind.ofName "MultiplyByConst" = some .MultiplyByConstOp := by
  decide

theorem ofName_DevideByConst : OpKind.ofName "DevideByConst" = some .DevideByConstOp := by
  decide

/-- The loop shared by the elementwise operators with a constant operand. -/
theorem const_loop {R : Type} [Zero R] (f : R → R → R) (c : R) (a h0 : List R) (n : Nat)
    (ha : n ≤ a.length) (hh : n ≤ h0.length) :
    ∃ h, forLoop n (fun i h => do
        let x ← load a i
        store h i (f x c)) h0 = some h ∧ h.length = h0.length ∧
      ∀ i, i < n → h[i]? = some (f (a.getD i 0) c) :=
  unary_loop (fun x => f x c) a h0 n ha hh

/-- Evaluation of the product of two expressions that evaluate to equal-shaped tensors. -/
theorem eval_mul {K : Type} [LinearOrderedField K] (exp log : K → K)
    (env : Nat → Option (Tensor K)) (x y : Node K) (a b : Tensor K)
    (hx : x.eval exp log env = some a) (hy : y.eval exp log env = some b)
    (haw : a.WellFormed) (hbw : b.WellFormed) (hab : b.shape = a.shape) :
    EvaluatesTo ((x.mul y).eval exp log env) a.shape
      (fun i => a.handle.getD i 0 * b.handle.getD i 0) := by
  unfold Tensor.WellFormed at haw hbw
  have hbN : b.handle.length = a.shape.NumElements := by
    rw [hbw, Tensor.NumElements, hab]
  obtain ⟨h, hrun, hlen, hval⟩ := binary_loop (fun u v : K => u * v) a.handle b.handle
    (List.replicate a.shape.NumElements 0) a.shape.NumElements (le_of_eq haw.symm)
    (le_of_eq hbN.symm) (by simp)
  refine ⟨⟨a.shape, h⟩, ?_, rfl, ?_, hval⟩
  · have key := congrArg (fun o : Option (List K) =>
      (o.bind (fun h => some [(⟨a.shape, h⟩ : Tensor K)])).bind (fun outs => outs[0]?)) hrun
    refine Eq.trans ?_ key
    simp only [Node.mul, Node.eval]
    rw [hx, hy, ofName_Multiply]
    rfl
  · show h.length = a.shape.NumElements
    rw [hlen]; simp

/-- Evaluation of an expression multiplied by a constant. -/
theorem eval_mulConst {K : Type} [LinearOrderedField K] (exp log : K → K)
    (env : Nat → Option (Tensor K)) (x : Node K) (a : Tensor K) (c : K)
    (hx : x.eval exp log env = some a) (haw : a.WellFormed) :
    EvaluatesTo ((x.mulConst c).eval exp log env) a.shape
      (fun i => a.handle.getD i 0 * c) := by
  unfold Tensor.WellFormed at haw
  obtain ⟨h, hrun, hlen, hval⟩ := const_loop (fun u v : K => u * v) c a.handle
    (List.replicate a.shape.NumElements 0) a.shape.NumElements (le_of_eq haw.symm) (by simp)
  refine ⟨⟨a.shape, h⟩, ?_, rfl, ?_, hval⟩
  · have hattr : Node.GetAttrFloat (.op1 "MultiplyByConst" [("const_val", .float c)] x)
        "const_val" = some c := by
      simp [Node.GetAttrFloat, Node.attrs, List.lookup]
    have hcomp : MultiplyByConstOp.Compute (.op1 "MultiplyByConst" [("const_val", .float c)] x) [a]
        [⟨a.shape, List.replicate a.shape.NumElements 0⟩] = some [⟨a.shape, h⟩] := by
      simp only [MultiplyByConstOp.Compute]
      rw [hattr]
      exact congrArg (fun o : Option (List K) =>
        o.bind (fun h => some [(⟨a.shape, h⟩ : Tensor K)])) hrun
    have key := congrArg (fun o : Option (List (Tensor K)) =>
      o.bind (fun outs => outs[0]?)) hcomp
    refine Eq.trans ?_ key
    simp only [Node.mulConst, Node.eval]
    rw [hx, ofName_MultiplyByConst]
    rfl
  · show h.length = a.shape.NumElements
    rw [hlen]; simp

/-- Evaluation of an expression divided by a constant. -/
theorem eval_divConst {K : Type} [LinearOrderedField K] (exp log : K → K)
    (env : Nat → Option (Tensor K)) (x : Node K) (a : Tensor K) (c : K)
    (hx : x.eval exp log env = some a) (haw : a.WellFormed) :
    EvaluatesTo ((x.divConst c).eval exp log env) a.shape
      (fun i => a.handle.getD i 0 / c) := by
  unfold Tensor.WellFormed at haw
  obtain ⟨h, hrun, hlen, hval⟩ := const_loop (fun u v : K => u / v) c a.handle
    (List.replicate a.shape.NumElements 0) a.shape.NumElements (le_of_eq haw.symm) (by simp)
  refine ⟨⟨a.shape, h⟩, ?_, rfl, ?_, hval⟩
  · have hattr : Node.GetAttrFloat (.op1 "DevideByConst" [("const_val", .float c)] x)
        "const_val" = some c := by
      simp [Node.GetAttrFloat, Node.attrs, List.lookup]
    have hcomp : DevideByConstOp.Compute (.op1 "DevideByConst" [("const_val", .float c)] x) [a]
        [⟨a.shape, List.replicate a.shape.NumElements 0⟩] = some [⟨a.shape, h⟩] := by
      simp only [DevideByConstOp.Compute]
      rw [hattr]
      exact congrArg (fun o : Option (List K) =>
        o.bind (fun h => some [(⟨a.shape, h⟩ : Tensor K)])) hrun
    have key := congrArg (fun o : Option (List (Tensor K)) =>
      o.bind (fun outs => outs[0]?)) hcomp
    refine Eq.trans ?_ key
    simp only [Node.divConst, Node.eval]
    rw [hx, ofName_DevideByConst]
    rfl
  · show h.length = a.shape.NumElements
    rw [hlen]; simp

/-- An evaluation read with another, pointwise equal, element function. -/
theorem EvaluatesTo.congr {R : Type} {res : Option (Tensor R)} {shape shape2 : TensorShape}
    {f f2 : Nat → R} (h : EvaluatesTo res shape f) (hs : shape = shape2)
    (hf : ∀ i, f i = f2 i) : EvaluatesTo res shape2 f2 := by
  subst hs
  obtain ⟨t, h1, h2, h3, h4⟩ := h
  exact ⟨t, h1, h2, h3, fun i hi => by rw [h4 i hi, hf i]⟩

/-- Claim C15. The gradient rules of Add, Minus, Multiply and the four ByConst operators.
On a node with two inputs (for the binary operators) and a node with one input and the
attribute `const_val = c` (for the ByConst operators), with incoming gradient `g`:
`AddOp` returns `{g, g}`, `AddByConstOp` and `MinusByConstOp` return `{g}`, `MinusOp`
returns `{g, g * -1}`, `MultiplyOp` returns `{g * input1, g * input0}` over the inputs of the
node, `MultiplyByConstOp` returns `{g * c}` and `DevideByConstOp` returns `{g / c}`.  When
the inputs and `g` evaluate to equal-shaped tensors `a`, `b`, `tg`, each returned expression
evaluates, with the `Compute` of the operators, to `tg[i]` times the factor `1`, `-1`,
`b[i]`, `a[i]`, `c` and (for `c ≠ 0`) `1 / c`; and these factors are the slopes of the
operators' output element in the input element: raising the input element by `h` changes
the output element by the factor times `h`. -/
theorem elementwise_Gradient_rules {K : Type} [LinearOrderedField K] (exp log : K → K)
    (env : Nat → Option (Tensor K)) (name2 name1 : String)
    (attrs2 attrs1 : List (String × AttrValue K)) (input0 input1 g : Node K)
    (out_grads : List (Node K)) (a b tg : Tensor K) (c : K)
    (hc : Node.GetAttrFloat (.op1 name1 attrs1 input0) "const_val" = some c)
    (ha : input0.eval exp log env = some a) (hb : input1.eval exp log env = some b)
    (hg : g.eval exp log env = some tg)
    (haw : a.WellFormed) (hbw : b.WellFormed) (hgw : tg.WellFormed)
    (hab : b.shape = a.shape) (hga : tg.shape = a.shape) :
    (AddOp.Gradient (.op2 name2 attrs2 input0 input1) g out_grads = some [g, g] ∧
     AddByConstOp.Gradient (.op1 name1 attrs1 input0) g out_grads = some [g] ∧
     MinusOp.Gradient (.op2 name2 attrs2 input0 input1) g out_grads =
       some [g, g.mulConst (-1)] ∧
     MinusByConstOp.Gradient (.op1 name1 attrs1 input0) g out_grads = some [g] ∧
     MultiplyOp.Gradient (.op2 name2 attrs2 input0 input1) g out_grads =
       some [g.mul input1, g.mul input0] ∧
     MultiplyByConstOp.Gradient (.op1 name1 attrs1 input0) g out_grads =
       some [g.mulConst c] ∧
     DevideByConstOp.Gradient (.op1 name1 attrs1 input0) g out_grads =
       some [g.divConst c]) ∧
    (EvaluatesTo (g.eval exp log env) a.shape (fun i => tg.handle.getD i 0 * 1) ∧
     EvaluatesTo ((g.mulConst (-1)).eval exp log env) a.shape
       (fun i => tg.handle.getD i 0 * (-1)) ∧
     EvaluatesTo ((g.mul input1).eval exp log env) a.shape
       (fun i => tg.handle.getD i 0 * b.handle.getD i 0) ∧
     EvaluatesTo ((g.mul input0).eval exp log env) a.shape
       (fun i => tg.handle.getD i 0 * a.handle.getD i 0) ∧
     EvaluatesTo ((g.mulConst c).eval exp log env) a.shape
       (fun i => tg.handle.getD i 0 * c) ∧
     (c ≠ 0 → EvaluatesTo ((g.divConst c).eval exp log env) a.shape
       (fun i => tg.handle.getD i 0 * (1 / c)))) ∧
    (∀ x y h : K,
      ((x + h) + y - (x + y) = 1 * h ∧ (x + (y + h)) - (x + y) = 1 * h) ∧
      ((x + h) + c - (x + c) = 1 * h) ∧
      ((x + h) - y - (x - y) = 1 * h ∧ (x - (y + h)) - (x - y) = (-1) * h) ∧
      ((x + h) - c - (x - c) = 1 * h) ∧
      ((x + h) * y - x * y = y * h ∧ x * (y + h) - x * y = x * h) ∧
      ((x + h) * c - x * c = c * h) ∧
      ((x + h) / c - x / c = (1 / c) * h)) := by
  have hgN : ∀ i, i < a.shape.NumElements →
      tg.handle[i]? = some (tg.handle.getD i 0) := by
    intro i hi
    unfold Tensor.WellFormed at hgw
    have : i < tg.handle.length := by rw [hgw, Tensor.NumElements, hga]; exact hi
    simpa [load] using load_eq_some tg.handle i this
  refine ⟨⟨rfl, rfl, rfl, rfl, rfl, ?_, ?_⟩, ⟨?_, ?_, ?_, ?_, ?_, ?_⟩, ?_⟩
  · simp only [MultiplyByConstOp.Gradient]
    rw [hc]
    rfl
  · simp only [DevideByConstOp.Gradient]
    rw [hc]
    rfl
  · exact ⟨tg, hg, hga, hgw, fun i hi => by rw [hgN i hi]; simp⟩
  · exact (eval_mulConst exp log env g tg (-1) hg hgw).congr hga (fun _ => rfl)
  · exact (eval_mul exp log env g input1 tg b hg hb hgw hbw (hab.trans hga.symm)).congr hga
      (fun _ => rfl)
  · exact (eval_mul exp log env g input0 tg a hg ha hgw haw hga.symm).congr hga
      (fun _ => rfl)
  · exact (eval_mulConst exp log env g tg c hg hgw).congr hga (fun _ => rfl)
  · intro _
    exact (eval_divConst exp log env g tg c hg hgw).congr hga
      (fun i => by rw [mul_one_div])
  · intro x y h
    refine ⟨⟨by ring, by ring⟩, by ring, ⟨by ring, by ring⟩, by ring, ⟨by ring, by ring⟩,
      by ring, by ring⟩

/-- The concrete scenario of C15: `a = [2, 3]`, `b = [4, 5]`, `g = [1, 1]` and
`const_val = 2`. -/
theorem elementwise_Gradient_rules_witness :
    MultiplyOp.Gradient (.op2 "Multiply" [] (.leaf 0) (.leaf 1) : Node ℚ) (.leaf 2) [] =
      some [Node.mul (.leaf 2) (.leaf 1), Node.mul (.leaf 2) (.leaf 0)] ∧
    DevideByConstOp.Gradient
        (.op1 "DevideByConst" [("const_val", .float 2)] (.leaf 0) : Node ℚ) (.leaf 2) [] =
      some [Node.divConst (.leaf 2) 2] ∧
    EvaluatesTo (Node.eval (fun v : ℚ => v) (fun v : ℚ => v)
        (fun id => if id = 0 then some ⟨⟨[2]⟩, [2, 3]⟩
          else if id = 1 then some ⟨⟨[2]⟩, [4, 5]⟩ else some ⟨⟨[2]⟩, [1, 1]⟩)
        (Node.mul (.leaf 2) (.leaf 1))) ⟨[2]⟩
      (fun i => ([1, 1] : List ℚ).getD i 0 * ([4, 5] : List ℚ).getD i 0) ∧
    EvaluatesTo (Node.eval (fun v : ℚ => v) (fun v : ℚ => v)
        (fun id => if id = 0 then some ⟨⟨[2]⟩, [2, 3]⟩
          else if id = 1 then some ⟨⟨[2]⟩, [4, 5]⟩ else some ⟨⟨[2]⟩, [1, 1]⟩)
        (Node.divConst (.leaf 2) 2)) ⟨[2]⟩
      (fun i => ([1, 1] : List ℚ).getD i 0 * (1 / 2)) := by
  obtain ⟨⟨-, -, -, -, h5, -, h7⟩, ⟨-, -, e3, -, -, e6⟩, -⟩ := elementwise_Gradient_rules
    (fun v : ℚ => v) (fun v : ℚ => v)
    (fun id => if id = 0 then some ⟨⟨[2]⟩, [2, 3]⟩
      else if id = 1 then some ⟨⟨[2]⟩, [4, 5]⟩ else some ⟨⟨[2]⟩, [1, 1]⟩)
    "Multiply" "DevideByConst" [] [("const_val", .float 2)] (.leaf 0) (.leaf 1) (.leaf 2) []
    ⟨⟨[2]⟩, [2, 3]⟩ ⟨⟨[2]⟩, [4, 5]⟩ ⟨⟨[2]⟩, [1, 1]⟩ 2
    (by simp [Node.GetAttrFloat, Node.attrs, List.lookup]) rfl rfl rfl
    (by decide) (by decide) (by decide) rfl rfl
  exact ⟨h5, h7, e3, e6 (by norm_num)⟩

theorem ofName_Devide : OpKind.ofName "Devide" = some .DevideOp := by decide

theorem ofName_Add : OpKind.ofName "Add" = some .AddOp := by decide

theorem ofName_Softmax : OpKind.ofName "Softmax" = some .SoftmaxOp := by decide

/-- Claim C14 (defect). For `a = [1]`, `b = [2]` and `g = [1]`, the first expression that
`DevideOp::Gradient` returns, `(g * node) / input1`, evaluates to `g·a/b² = [1/4]`, where
the claim has `g·(1/b) = [1/2]`; the second, `(-1 * g) / input1`, evaluates to
`-g/b = [-1/2]`, where the claim has `g·(-a/b²) = [-1/4]`.  The forward output `a / b` is
`[1/2]`, and `[1]` for `a = [2]`: its slope in `a` is `1/2`. -/
theorem DevideOp.Gradient_values_defect :
    DevideOp.Gradient (.op2 "Devide" [] (.leaf 0) (.leaf 1) : Node ℚ) (.leaf 2) [] =
      some [(Node.mul (.leaf 2) (.op2 "Devide" [] (.leaf 0) (.leaf 1))).div (.leaf 1),
            (Node.constMul (-1) (.leaf 2)).div (.leaf 1)] ∧
    Node.eval (fun v : ℚ => v) (fun v : ℚ => v)
        (fun id => if id = 0 then some ⟨⟨[1]⟩, [1]⟩
          else if id = 1 then some ⟨⟨[1]⟩, [2]⟩ else some ⟨⟨[1]⟩, [1]⟩)
        ((Node.mul (.leaf 2) (.op2 "Devide" [] (.leaf 0) (.leaf 1))).div (.leaf 1)) =
      some ⟨⟨[1]⟩, [1 / 4]⟩ ∧
    Node.eval (fun v : ℚ => v) (fun v : ℚ => v)
        (fun id => if id = 0 then some ⟨⟨[1]⟩, [1]⟩
          else if id = 1 then some ⟨⟨[1]⟩, [2]⟩ else some ⟨⟨[1]⟩, [1]⟩)
        ((Node.constMul (-1) (.leaf 2)).div (.leaf 1)) =
      some ⟨⟨[1]⟩, [-(1 / 2)]⟩ ∧
    ((1 : ℚ) * (1 / 2) ≠ 1 / 4 ∧ (1 : ℚ) * (-1 / 2 ^ 2) ≠ -(1 / 2)) ∧
    DevideOp.Compute (.op2 "Devide" [] (.leaf 0) (.leaf 1)) [(⟨⟨[1]⟩, [1]⟩ : Tensor ℚ),
        ⟨⟨[1]⟩, [2]⟩] [⟨⟨[1]⟩, [0]⟩] = some [⟨⟨[1]⟩, [1 / 2]⟩] ∧
    DevideOp.Compute (.op2 "Devide" [] (.leaf 0) (.leaf 1)) [(⟨⟨[1]⟩, [1 + 1]⟩ : Tensor ℚ),
        ⟨⟨[1]⟩, [2]⟩] [⟨⟨[1]⟩, [0]⟩] = some [⟨⟨[1]⟩, [1 / 2 + 1 / 2]⟩] := by
  refine ⟨rfl, ?_, ?_, ⟨by norm_num, by norm_num⟩, ?_, ?_⟩
  · simp [Node.eval, Node.mul, Node.div, ofName_Devide, ofName_Multiply, runOp, Op.Infer,
      Op.Compute, DevideOp.Infer, MultiplyOp.Infer, DevideOp.Compute, MultiplyOp.Compute,
      forLoop, load, store, Tensor.NumElements, TensorShape.NumElements]
    norm_num
  · simp [Node.eval, Node.constMul, Node.div, ofName_Devide, ofName_MultiplyByConst, runOp,
      Op.Infer, Op.Compute, DevideOp.Infer, MultiplyByConstOp.Infer, DevideOp.Compute,
      MultiplyByConstOp.Compute, Node.GetAttrFloat, Node.attrs, List.lookup,
      forLoop, load, store, Tensor.NumElements, TensorShape.NumElements]
    norm_num
  · simp [DevideOp.Compute, forLoop, load, store, Tensor.NumElements,
      TensorShape.NumElements]
  · simp [DevideOp.Compute, forLoop, load, store, Tensor.NumElements,
      TensorShape.NumElements]
    norm_num

/-- One evaluation step at a node with one input. -/
theorem eval_op1 {K : Type} [LinearOrderedField K] (exp log : K → K)
    (env : Nat → Option (Tensor K)) (name : String) (attrs : List (String × AttrValue K))
    (x : Node K) (tx : Tensor K) (kind : OpKind)
    (hx : x.eval exp log env = some tx) (hk : OpKind.ofName name = some kind) :
    (Node.op1 name attrs x).eval exp log env = runOp exp log kind (.op1 name attrs x) [tx] := by
  simp only [Node.eval]
  rw [hx, hk]
  rfl

/-- One evaluation step at a node with two inputs. -/
theorem eval_op2 {K : Type} [LinearOrderedField K] (exp log : K → K)
    (env : Nat → Option (Tensor K)) (name : String) (attrs : List (String × AttrValue K))
    (x y : Node K) (tx ty : Tensor K) (kind : OpKind)
    (hx : x.eval exp log env = some tx) (hy : y.eval exp log env = some ty)
    (hk : OpKind.ofName name = some kind) :
    (Node.op2 name attrs x y).eval exp log env =
      runOp exp log kind (.op2 name attrs x y) [tx, ty] := by
  simp only [Node.eval]
  rw [hx, hy, hk]
  rfl

theorem softmax_zeros_example :
    runOp Real.exp Real.log .SoftmaxOp (SoftmaxOperator (.leaf 0))
      [(⟨⟨[2, 2]⟩, [0, 0, 0, 0]⟩ : Tensor ℝ)] = some ⟨⟨[2, 2]⟩, [1 / 2, 1 / 2, 1 / 2, 1 / 2]⟩ := by
  simp [runOp, Op.Infer, Op.Compute, SoftmaxOp.Infer, SoftmaxOp.Compute, TensorShape.DimSize,
    forLoop, load, store, Tensor.NumElements, TensorShape.NumElements]
  norm_num

theorem negated_labels_example :
    runOp Real.exp Real.log .MultiplyByConstOp (Node.mulConst (.leaf 1) (-1))
      [(⟨⟨[2, 2]⟩, [1, 0, 0, 1]⟩ : Tensor ℝ)] = some ⟨⟨[2, 2]⟩, [-1, 0, 0, -1]⟩ := by
  simp [runOp, Op.Infer, Op.Compute, MultiplyByConstOp.Infer, MultiplyByConstOp.Compute,
    Node.mulConst, Node.GetAttrFloat, Node.attrs, List.lookup,
    forLoop, load, store, Tensor.NumElements, TensorShape.NumElements]

theorem softmax_minus_labels_example (n : Node ℝ) :
    runOp Real.exp Real.log .AddOp n
      [(⟨⟨[2, 2]⟩, [1 / 2, 1 / 2, 1 / 2, 1 / 2]⟩ : Tensor ℝ), ⟨⟨[2, 2]⟩, [-1, 0, 0, -1]⟩] =
      some ⟨⟨[2, 2]⟩, [-(1 / 2), 1 / 2, 1 / 2, -(1 / 2)]⟩ := by
  simp [runOp, Op.Infer, Op.Compute, AddOp.Infer, AddOp.Compute,
    forLoop, load, store, Tensor.NumElements, TensorShape.NumElements]
  norm_num

theorem times_ones_example (n : Node ℝ) :
    runOp Real.exp Real.log .MultiplyOp n
      [(⟨⟨[2, 2]⟩, [-(1 / 2), 1 / 2, 1 / 2, -(1 / 2)]⟩ : Tensor ℝ), ⟨⟨[2, 2]⟩, [1, 1, 1, 1]⟩] =
      some ⟨⟨[2, 2]⟩, [-(1 / 2), 1 / 2, 1 / 2, -(1 / 2)]⟩ := by
  simp [runOp, Op.Infer, Op.Compute, MultiplyOp.Infer, MultiplyOp.Compute,
    forLoop, load, store, Tensor.NumElements, TensorShape.NumElements]

theorem times_scalar_example (n : Node ℝ) :
    runOp Real.exp Real.log .MultiplyOp n
      [(⟨⟨[2, 2]⟩, [-(1 / 2), 1 / 2, 1 / 2, -(1 / 2)]⟩ : Tensor ℝ), ⟨⟨[1]⟩, [1]⟩] = none := by
  simp [runOp, Op.Infer, Op.Compute, MultiplyOp.Infer, MultiplyOp.Compute,
    forLoop, load, store, Tensor.NumElements, TensorShape.NumElements]

/-- Claim C12 (defect). On a SoftmaxCrossEntropy node `SoftmaxCrossEntropyOp::Gradient`
returns `{(Softmax(y) + y_ * -1) * g, Zeros(y_)}`.  For the `2 × 2` logits `y = 0`, the
labels `y_ = [[1,0],[0,1]]` and `g = 1` at every element, the first expression evaluates
over the reals to `softmax(y) - y_ = [[-1/2, 1/2], [1/2, -1/2]]`, without the factor
`1/m`: the claim has `(softmax(y) - y_) / 2`, which is `-1/4` at entry `(0, 0)`.  With `g`
the one-element tensor `[1]`, shaped like the output of the operator, the product reads `g`
outside its buffer and the evaluation fails. -/
theorem SoftmaxCrossEntropyOp.Gradient_mean_defect :
    SoftmaxCrossEntropyOp.Gradient
        (.op2 "SoftmaxCrossEntropy" [] (.leaf 0) (.leaf 1) : Node ℝ) (.leaf 2) [] =
      some [((SoftmaxOperator (.leaf 0)).add (Node.mulConst (.leaf 1) (-1))).mul (.leaf 2),
            ZerosOperator (.leaf 1)] ∧
    Node.eval Real.exp Real.log
        (fun id => if id = 0 then some ⟨⟨[2, 2]⟩, [0, 0, 0, 0]⟩
          else if id = 1 then some ⟨⟨[2, 2]⟩, [1, 0, 0, 1]⟩
          else some ⟨⟨[2, 2]⟩, [1, 1, 1, 1]⟩)
        (((SoftmaxOperator (.leaf 0)).add (Node.mulConst (.leaf 1) (-1))).mul (.leaf 2)) =
      some ⟨⟨[2, 2]⟩, [-(1 / 2), 1 / 2, 1 / 2, -(1 / 2)]⟩ ∧
    (softmaxRef Real.exp ([0, 0, 0, 0] : List ℝ) 2 0 0 - 1) / ((2 : Nat) : ℝ) = -(1 / 4) ∧
    Node.eval Real.exp Real.log
        (fun id => if id = 0 then some ⟨⟨[2, 2]⟩, [0, 0, 0, 0]⟩
          else if id = 1 then some ⟨⟨[2, 2]⟩, [1, 0, 0, 1]⟩
          else some ⟨⟨[1]⟩, [1]⟩)
        (((SoftmaxOperator (.leaf 0)).add (Node.mulConst (.leaf 1) (-1))).mul (.leaf 2)) =
      none := by
  have hS : ∀ env : Nat → Option (Tensor ℝ), env 0 = some ⟨⟨[2, 2]⟩, [0, 0, 0, 0]⟩ →
      Node.eval Real.exp Real.log env (SoftmaxOperator (.leaf 0)) =
        some ⟨⟨[2, 2]⟩, [1 / 2, 1 / 2, 1 / 2, 1 / 2]⟩ := fun env h0 =>
    (eval_op1 Real.exp Real.log env "Softmax" [] (.leaf 0) _ .SoftmaxOp h0
      ofName_Softmax).trans softmax_zeros_example
  have hM : ∀ env : Nat → Option (Tensor ℝ), env 1 = some ⟨⟨[2, 2]⟩, [1, 0, 0, 1]⟩ →
      Node.eval Real.exp Real.log env (Node.mulConst (.leaf 1) (-1)) =
        some ⟨⟨[2, 2]⟩, [-1, 0, 0, -1]⟩ := fun env h1 =>
    (eval_op1 Real.exp Real.log env "MultiplyByConst" [("const_val", .float (-1))] (.leaf 1)
      _ .MultiplyByConstOp h1 ofName_MultiplyByConst).trans negated_labels_example
  have hA : ∀ env : Nat → Option (Tensor ℝ), env 0 = some ⟨⟨[2, 2]⟩, [0, 0, 0, 0]⟩ →
      env 1 = some ⟨⟨[2, 2]⟩, [1, 0, 0, 1]⟩ →
      Node.eval Real.exp Real.log env
          ((SoftmaxOperator (.leaf 0)).add (Node.mulConst (.leaf 1) (-1))) =
        some ⟨⟨[2, 2]⟩, [-(1 / 2), 1 / 2, 1 / 2, -(1 / 2)]⟩ := fun env h0 h1 =>
    (eval_op2 Real.exp Real.log env "Add" [] _ _ _ _ .AddOp (hS env h0) (hM env h1)
      ofName_Add).trans (softmax_minus_labels_example _)
  refine ⟨rfl, ?_, ?_, ?_⟩
  · exact (eval_op2 Real.exp Real.log
      (fun id => if id = 0 then some ⟨⟨[2, 2]⟩, [0, 0, 0, 0]⟩
        else if id = 1 then some ⟨⟨[2, 2]⟩, [1, 0, 0, 1]⟩
        else some ⟨⟨[2, 2]⟩, [1, 1, 1, 1]⟩)
      "Multiply" [] _ (.leaf 2) _ ⟨⟨[2, 2]⟩, [1, 1, 1, 1]⟩ .MultiplyOp (hA _ rfl rfl) rfl
      ofName_Multiply).trans (times_ones_example _)
  · simp [softmaxRef, Finset.sum_range_succ]
    norm_num
  · exact (eval_op2 Real.exp Real.log
      (fun id => if id = 0 then some ⟨⟨[2, 2]⟩, [0, 0, 0, 0]⟩
        else if id = 1 then some ⟨⟨[2, 2]⟩, [1, 0, 0, 1]⟩
        else some ⟨⟨[1]⟩, [1]⟩)
      "Multiply" [] _ (.leaf 2) _ ⟨⟨[1]⟩, [1]⟩ .MultiplyOp (hA _ rfl rfl) rfl
      ofName_Multiply).trans (times_scalar_example _)

/-! ## Shapes of gradient expressions -/

theorem ofName_AddByConst : OpKind.ofName "AddByConst" = some .AddByConstOp := by decide

theorem ofName_Minus : OpKind.ofName "Minus" = some .MinusOp := by decide

theorem ofName_MinusByConst : OpKind.ofName "MinusByConst" = some .MinusByConstOp := by decide

theorem ofName_Zeros : OpKind.ofName "Zeros" = some .ZerosOp := by decide

theorem ofName_Ones : OpKind.ofName "Ones" = some .OnesOp := by decide

theorem ofName_ReduceSumAxisZero :
    OpKind.ofName "ReduceSumAxisZero" = some .ReduceSumAxisZeroOp := by decide

theorem ofName_BroadCastTo : OpKind.ofName "BroadCastTo" = some .BroadCastToOp := by decide

theorem ofName_SoftmaxCrossEntropy :
    OpKind.ofName "SoftmaxCrossEntropy" = some .SoftmaxCrossEntropyOp := by decide

/-- The inferred shape of a node with one input, from the shape of the input and the
result of the `Infer` of its class. -/
theorem shape_op1 {R : Type} (senv : Nat → Option TensorShape) (name : String)
    (attrs : List (String × AttrValue R)) (x : Node R) (sx : TensorShape) (kind : OpKind)
    (out : TensorShape) (hx : x.inferShape senv = some sx)
    (hk : OpKind.ofName name = some kind)
    (hinf : Op.Infer ⟨kind, none⟩ (.op1 name attrs x) [sx] [] = some [out]) :
    (Node.op1 name attrs x).inferShape senv = some out := by
  simp only [Node.inferShape]
  rw [hx, hk]
  show (Op.Infer ⟨kind, none⟩ (.op1 name attrs x) [sx] []).bind _ = _
  rw [hinf]
  rfl

/-- The inferred shape of a node with two inputs, from the shapes of the inputs and the
result of the `Infer` of its class. -/
theorem shape_op2 {R : Type} (senv : Nat → Option TensorShape) (name : String)
    (attrs : List (String × AttrValue R)) (x y : Node R) (sx sy : TensorShape)
    (kind : OpKind) (out : TensorShape) (hx : x.inferShape senv = some sx)
    (hy : y.inferShape senv = some sy) (hk : OpKind.ofName name = some kind)
    (hinf : Op.Infer ⟨kind, none⟩ (.op2 name attrs x y) [sx, sy] [] = some [out]) :
    (Node.op2 name attrs x y).inferShape senv = some out := by
  simp only [Node.inferShape]
  rw [hx, hy, hk]
  show (Op.Infer ⟨kind, none⟩ (.op2 name attrs x y) [sx, sy] []).bind _ = _
  rw [hinf]
  rfl

/-- On an empty output list `ReduceSumAxisZeroOp::Infer` leaves the input shape without
its leading dimension, for every input shape. -/
theorem ReduceSumAxisZeroOp.Infer_tail {R : Type} (node : Node R) (s : TensorShape) :
    ReduceSumAxisZeroOp.Infer node [s] [] = some [⟨s.dims.tail⟩] := by
  obtain ⟨dims⟩ := s
  cases dims with
  | nil => rfl
  | cons n tl => exact ReduceSumAxisZeroOp.Infer_cons node n tl

/-- Claim C21. Gradient expressions are shape-sound for the differentiable operators other
than MatMul.  Let `input0` and `input1` have the same inferred shape `s`, let `tpl` have
the shape `(n, s)`, and let the one-input nodes carry the attribute `const_val = c`.  For
each of Add, Minus, Multiply, Devide, AddByConst, MinusByConst, MultiplyByConst,
DevideByConst, Zeros, Ones, ReduceSumAxisZero, BroadCastTo (on `input0` and `tpl`) and
SoftmaxCrossEntropy, and for every incoming gradient `g` shaped like the inferred output
of the node, `Gradient` returns as many expressions as the node has inputs, and running
the `Infer` of the operators over the `k`-th returned expression gives the shape of the
`k`-th input. -/
theorem Gradient_shape_sound {K : Type} [Neg K] [One K] (senv : Nat → Option TensorShape)
    (attrs2 attrs1 : List (String × AttrValue K)) (input0 input1 tpl : Node K)
    (out_grads : List (Node K)) (s : TensorShape) (n : Nat) (c : K)
    (h0 : input0.inferShape senv = some s) (h1 : input1.inferShape senv = some s)
    (ht : tpl.inferShape senv = some ⟨n :: s.dims⟩)
    (hc : attrs1.lookup "const_val" = some (.float c)) :
    GradientShapeSound senv (.op2 "Add" attrs2 input0 input1)
      (fun g => AddOp.Gradient (.op2 "Add" attrs2 input0 input1) g out_grads) ∧
    GradientShapeSound senv (.op2 "Minus" attrs2 input0 input1)
      (fun g => MinusOp.Gradient (.op2 "Minus" attrs2 input0 input1) g out_grads) ∧
    GradientShapeSound senv (.op2 "Multiply" attrs2 input0 input1)
      (fun g => MultiplyOp.Gradient (.op2 "Multiply" attrs2 input0 input1) g out_grads) ∧
    GradientShapeSound senv (.op2 "Devide" attrs2 input0 input1)
      (fun g => DevideOp.Gradient (.op2 "Devide" attrs2 input0 input1) g out_grads) ∧
    GradientShapeSound senv (.op1 "AddByConst" attrs1 input0)
      (fun g => AddByConstOp.Gradient (.op1 "AddByConst" attrs1 input0) g out_grads) ∧
    GradientShapeSound senv (.op1 "MinusByConst" attrs1 input0)
      (fun g => MinusByConstOp.Gradient (.op1 "MinusByConst" attrs1 input0) g out_grads) ∧
    GradientShapeSound senv (.op1 "MultiplyByConst" attrs1 input0)
      (fun g =>
        MultiplyByConstOp.Gradient (.op1 "MultiplyByConst" attrs1 input0) g out_grads) ∧
    GradientShapeSound senv (.op1 "DevideByConst" attrs1 input0)
      (fun g => DevideByConstOp.Gradient (.op1 "DevideByConst" attrs1 input0) g out_grads) ∧
    GradientShapeSound senv (.op1 "Zeros" attrs1 input0)
      (fun g => ZerosOp.Gradient (.op1 "Zeros" attrs1 input0) g out_grads) ∧
    GradientShapeSound senv (.op1 "Ones" attrs1 input0)
      (fun g => OnesOp.Gradient (.op1 "Ones" attrs1 input0) g out_grads) ∧
    GradientShapeSound senv (.op1 "ReduceSumAxisZero" attrs1 input0)
      (fun g =>
        ReduceSumAxisZeroOp.Gradient (.op1 "ReduceSumAxisZero" attrs1 input0) g out_grads) ∧
    GradientShapeSound senv (.op2 "BroadCastTo" attrs2 input0 tpl)
      (fun g => BroadCastToOp.Gradient (.op2 "BroadCastTo" attrs2 input0 tpl) g out_grads) ∧
    GradientShapeSound senv (.op2 "SoftmaxCrossEntropy" attrs2 input0 input1)
      (fun g => SoftmaxCrossEntropyOp.Gradient
        (.op2 "SoftmaxCrossEntropy" attrs2 input0 input1) g out_grads) := by
  have hattr : ∀ name : String,
      Node.GetAttrFloat (.op1 name attrs1 input0) "const_val" = some c := by
    intro name
    simp only [Node.GetAttrFloat, Node.attrs]
    rw [hc]
  refine ⟨?_, ?_, ?_, ?_, ?_, ?_, ?_, ?_, ?_, ?_, ?_, ?_, ?_⟩
  · -- Add
    have hnode := shape_op2 senv "Add" attrs2 input0 input1 s s .AddOp s h0 h1 ofName_Add rfl
    refine ⟨⟨s, hnode⟩, fun g hg => ⟨[g, g], [s, s], rfl, rfl, ?_, ?_⟩⟩
    · rw [hnode] at hg
      simp only [List.map, hg]
    · simp only [Node.GetInputNodes, List.map, h0, h1]
  · -- Minus
    have hnode := shape_op2 senv "Minus" attrs2 input0 input1 s s .MinusOp s h0 h1
      ofName_Minus rfl
    refine ⟨⟨s, hnode⟩, fun g hg => ⟨[g, g.mulConst (-1)], [s, s], rfl, rfl, ?_, ?_⟩⟩
    · rw [hnode] at hg
      have e := shape_op1 senv "MultiplyByConst" [("const_val", .float (-1 : K))] g s
        .MultiplyByConstOp s hg ofName_MultiplyByConst rfl
      simp only [List.map, hg, Node.mulConst, e]
    · simp only [Node.GetInputNodes, List.map, h0, h1]
  · -- Multiply
    have hnode := shape_op2 senv "Multiply" attrs2 input0 input1 s s .MultiplyOp s h0 h1
      ofName_Multiply rfl
    refine ⟨⟨s, hnode⟩, fun g hg =>
      ⟨[g.mul input1, g.mul input0], [s, s], rfl, rfl, ?_, ?_⟩⟩
    · rw [hnode] at hg
      have e1 := shape_op2 senv "Multiply" [] g input1 s s .MultiplyOp s hg h1
        ofName_Multiply rfl
      have e0 := shape_op2 senv "Multiply" [] g input0 s s .MultiplyOp s hg h0
        ofName_Multiply rfl
      simp only [List.map, Node.mul, e1, e0]
    · simp only [Node.GetInputNodes, List.map, h0, h1]
  · -- Devide
    have hnode := shape_op2 senv "Devide" attrs2 input0 input1 s s .DevideOp s h0 h1
      ofName_Devide rfl
    refine ⟨⟨s, hnode⟩, fun g hg =>
      ⟨[(g.mul (.op2 "Devide" attrs2 input0 input1)).div input1,
        (Node.constMul (-1) g).div input1], [s, s], rfl, rfl, ?_, ?_⟩⟩
    · rw [hnode] at hg
      have e1 := shape_op2 senv "Multiply" [] g (.op2 "Devide" attrs2 input0 input1) s s
        .MultiplyOp s hg hnode ofName_Multiply rfl
      have e2 := shape_op2 senv "Devide" [] _ input1 s s .DevideOp s e1 h1 ofName_Devide rfl
      have e3 := shape_op1 senv "MultiplyByConst" [("const_val", .float (-1 : K))] g s
        .MultiplyByConstOp s hg ofName_MultiplyByConst rfl
      have e4 := shape_op2 senv "Devide" [] _ input1 s s .DevideOp s e3 h1 ofName_Devide rfl
      simp only [List.map, Node.mul, Node.div, Node.constMul, e2, e4]
    · simp only [Node.GetInputNodes, List.map, h0, h1]
  · -- AddByConst
    have hnode := shape_op1 senv "AddByConst" attrs1 input0 s .AddByConstOp s h0
      ofName_AddByConst rfl
    refine ⟨⟨s, hnode⟩, fun g hg => ⟨[g], [s], rfl, rfl, ?_, ?_⟩⟩
    · rw [hnode] at hg
      simp only [List.map, hg]
    · simp only [Node.GetInputNodes, List.map, h0]
  · -- MinusByConst
    have hnode := shape_op1 senv "MinusByConst" attrs1 input0 s .MinusByConstOp s h0
      ofName_MinusByConst rfl
    refine ⟨⟨s, hnode⟩, fun g hg => ⟨[g], [s], rfl, rfl, ?_, ?_⟩⟩
    · rw [hnode] at hg
      simp only [List.map, hg]
    · simp only [Node.GetInputNodes, List.map, h0]
  · -- MultiplyByConst
    have hnode := shape_op1 senv "MultiplyByConst" attrs1 input0 s .MultiplyByConstOp s h0
      ofName_MultiplyByConst rfl
    refine ⟨⟨s, hnode⟩, fun g hg => ⟨[g.mulConst c], [s], ?_, rfl, ?_, ?_⟩⟩
    · simp only [MultiplyByConstOp.Gradient]
      rw [hattr]
      rfl
    · rw [hnode] at hg
      have e := shape_op1 senv "MultiplyByConst" [("const_val", .float c)] g s
        .MultiplyByConstOp s hg ofName_MultiplyByConst rfl
      simp only [List.map, Node.mulConst, e]
    · simp only [Node.GetInputNodes, List.map, h0]
  · -- DevideByConst
    have hnode := shape_op1 senv "DevideByConst" attrs1 input0 s .DevideByConstOp s h0
      ofName_DevideByConst rfl
    refine ⟨⟨s, hnode⟩, fun g hg => ⟨[g.divConst c], [s], ?_, rfl, ?_, ?_⟩⟩
    · simp only [DevideByConstOp.Gradient]
      rw [hattr]
      rfl
    · rw [hnode] at hg
      have e := shape_op1 senv "DevideByConst" [("const_val", .float c)] g s
        .DevideByConstOp s hg ofName_DevideByConst rfl
      simp only [List.map, Node.divConst, e]
    · simp only [Node.GetInputNodes, List.map, h0]
  · -- Zeros
    have hnode := shape_op1 senv "Zeros" attrs1 input0 s .ZerosOp s h0 ofName_Zeros rfl
    refine ⟨⟨s, hnode⟩, fun g _ => ⟨[ZerosOperator input0], [s], rfl, rfl, ?_, ?_⟩⟩
    · have e := shape_op1 senv "Zeros" [] input0 s .ZerosOp s h0 ofName_Zeros rfl
      simp only [List.map, ZerosOperator, e]
    · simp only [Node.GetInputNodes, List.map, h0]
  · -- Ones
    have hnode := shape_op1 senv "Ones" attrs1 input0 s .OnesOp s h0 ofName_Ones rfl
    refine ⟨⟨s, hnode⟩, fun g _ => ⟨[ZerosOperator input0], [s], rfl, rfl, ?_, ?_⟩⟩
    · have e := shape_op1 senv "Zeros" [] input0 s .ZerosOp s h0 ofName_Zeros rfl
      simp only [List.map, ZerosOperator, e]
    · simp only [Node.GetInputNodes, List.map, h0]
  · -- ReduceSumAxisZero
    have hnode := shape_op1 senv "ReduceSumAxisZero" attrs1 input0 s .ReduceSumAxisZeroOp
      ⟨s.dims.tail⟩ h0 ofName_ReduceSumAxisZero (ReduceSumAxisZeroOp.Infer_tail (.op1 "ReduceSumAxisZero" attrs1 input0) s)
    refine ⟨⟨_, hnode⟩, fun g hg =>
      ⟨[BroadCastToOperator g input0], [s], rfl, rfl, ?_, ?_⟩⟩
    · rw [hnode] at hg
      have e := shape_op2 senv "BroadCastTo" [] g input0 _ s .BroadCastToOp s hg h0
        ofName_BroadCastTo rfl
      simp only [List.map, BroadCastToOperator, e]
    · simp only [Node.GetInputNodes, List.map, h0]
  · -- BroadCastTo
    have hnode := shape_op2 senv "BroadCastTo" attrs2 input0 tpl s ⟨n :: s.dims⟩
      .BroadCastToOp ⟨n :: s.dims⟩ h0 ht ofName_BroadCastTo rfl
    refine ⟨⟨_, hnode⟩, fun g hg =>
      ⟨[ReduceSumAxisZeroOperator g, ZerosOperator tpl], [s, ⟨n :: s.dims⟩], rfl, rfl,
        ?_, ?_⟩⟩
    · rw [hnode] at hg
      have e1 := shape_op1 senv "ReduceSumAxisZero" [] g ⟨n :: s.dims⟩ .ReduceSumAxisZeroOp
        s hg ofName_ReduceSumAxisZero (ReduceSumAxisZeroOp.Infer_cons (.op1 "ReduceSumAxisZero" [] g) n s.dims)
      have e2 := shape_op1 senv "Zeros" [] tpl ⟨n :: s.dims⟩ .ZerosOp ⟨n :: s.dims⟩ ht
        ofName_Zeros rfl
      simp only [List.map, ReduceSumAxisZeroOperator, ZerosOperator, e1, e2]
    · simp only [Node.GetInputNodes, List.map, h0, ht]
  · -- SoftmaxCrossEntropy
    have hnode := shape_op2 senv "SoftmaxCrossEntropy" attrs2 input0 input1 s s
      .SoftmaxCrossEntropyOp ⟨[1]⟩ h0 h1 ofName_SoftmaxCrossEntropy rfl
    refine ⟨⟨_, hnode⟩, fun g hg =>
      ⟨[((SoftmaxOperator input0).add (input1.mulConst (-1))).mul g, ZerosOperator input1],
        [s, s], rfl, rfl, ?_, ?_⟩⟩
    · rw [hnode] at hg
      have e1 := shape_op1 senv "Softmax" [] input0 s .SoftmaxOp s h0 ofName_Softmax rfl
      have e2 := shape_op1 senv "MultiplyByConst" [("const_val", .float (-1 : K))] input1 s
        .MultiplyByConstOp s h1 ofName_MultiplyByConst rfl
      have e3 := shape_op2 senv "Add" [] _ _ s s .AddOp s e1 e2 ofName_Add rfl
      have e4 := shape_op2 senv "Multiply" [] _ g s ⟨[1]⟩ .MultiplyOp s e3 hg
        ofName_Multiply rfl
      have e5 := shape_op1 senv "Zeros" [] input1 s .ZerosOp s h1 ofName_Zeros rfl
      simp only [List.map, Node.mul, Node.add, Node.mulConst, SoftmaxOperator, ZerosOperator,
        e4, e5]
    · simp only [Node.GetInputNodes, List.map, h0, h1]

/-- The concrete scenario of C21: inputs of shape `(2, 3)`, a template of shape
`(4, 2, 3)` and `const_val = 2`; the gradients of the Devide, BroadCastTo and
SoftmaxCrossEntropy nodes, the incoming gradient being leaf `3` of shape `(2, 3)`, leaf `4`
of shape `(4, 2, 3)` and leaf `5` of shape `(1)`. -/
theorem Gradient_shape_sound_witness :
    (GradientShapeSound
        (fun id => if id = 0 ∨ id = 1 ∨ id = 3 then some ⟨[2, 3]⟩
          else if id = 2 ∨ id = 4 then some ⟨[4, 2, 3]⟩ else some ⟨[1]⟩)
        (.op2 "Devide" [] (.leaf 0) (.leaf 1) : Node Int)
        (fun g => DevideOp.Gradient (.op2 "Devide" [] (.leaf 0) (.leaf 1)) g []) ∧
     GradientShapeSound
        (fun id => if id = 0 ∨ id = 1 ∨ id = 3 then some ⟨[2, 3]⟩
          else if id = 2 ∨ id = 4 then some ⟨[4, 2, 3]⟩ else some ⟨[1]⟩)
        (.op2 "BroadCastTo" [] (.leaf 0) (.leaf 2) : Node Int)
        (fun g => BroadCastToOp.Gradient (.op2 "BroadCastTo" [] (.leaf 0) (.leaf 2)) g []) ∧
     GradientShapeSound
        (fun id => if id = 0 ∨ id = 1 ∨ id = 3 then some ⟨[2, 3]⟩
          else if id = 2 ∨ id = 4 then some ⟨[4, 2, 3]⟩ else some ⟨[1]⟩)
        (.op2 "SoftmaxCrossEntropy" [] (.leaf 0) (.leaf 1) : Node Int)
        (fun g => SoftmaxCrossEntropyOp.Gradient
          (.op2 "SoftmaxCrossEntropy" [] (.leaf 0) (.leaf 1)) g [])) ∧
    (DevideOp.Gradient (.op2 "Devide" [] (.leaf 0) (.leaf 1) : Node Int) (.leaf 3) []).map
        (List.map (Node.inferShape
          (fun id => if id = 0 ∨ id = 1 ∨ id = 3 then some ⟨[2, 3]⟩
            else if id = 2 ∨ id = 4 then some ⟨[4, 2, 3]⟩ else some ⟨[1]⟩))) =
      some [some ⟨[2, 3]⟩, some ⟨[2, 3]⟩] ∧
    (BroadCastToOp.Gradient (.op2 "BroadCastTo" [] (.leaf 0) (.leaf 2) : Node Int)
        (.leaf 4) []).map
        (List.map (Node.inferShape
          (fun id => if id = 0 ∨ id = 1 ∨ id = 3 then some ⟨[2, 3]⟩
            else if id = 2 ∨ id = 4 then some ⟨[4, 2, 3]⟩ else some ⟨[1]⟩))) =
      some [some ⟨[2, 3]⟩, some ⟨[4, 2, 3]⟩] ∧
    (SoftmaxCrossEntropyOp.Gradient
        (.op2 "SoftmaxCrossEntropy" [] (.leaf 0) (.leaf 1) : Node Int) (.leaf 5) []).map
        (List.map (Node.inferShape
          (fun id => if id = 0 ∨ id = 1 ∨ id = 3 then some ⟨[2, 3]⟩
            else if id = 2 ∨ id = 4 then some ⟨[4, 2, 3]⟩ else some ⟨[1]⟩))) =
      some [some ⟨[2, 3]⟩, some ⟨[2, 3]⟩] := by
  obtain ⟨-, -, -, hDev, -, -, -, -, -, -, -, hBc, hSce⟩ := Gradient_shape_sound
    (fun id => if id = 0 ∨ id = 1 ∨ id = 3 then some ⟨[2, 3]⟩
      else if id = 2 ∨ id = 4 then some ⟨[4, 2, 3]⟩ else some ⟨[1]⟩)
    [] [("const_val", .float (2 : Int))] (.leaf 0) (.leaf 1) (.leaf 2) [] ⟨[2, 3]⟩ 4 2
    rfl rfl rfl rfl
  exact ⟨⟨hDev, hBc, hSce⟩, by decide, by decide, by decide⟩

end Dream
